import Mathlib

/-!
Shallow embedding of the foundry proxy core (src/proxy) and verification of
the frozen claims about it.

Strings are modelled as lists of characters (`Str`).  Python `str` methods
(`strip`, `split`, `count`, truthiness) are embedded as functions on `Str`;
character classes (`str.isalnum`, whitespace) are modelled over the ASCII
range, which covers every identifier and separator the code manipulates.
-/

/-- Python strings, modelled as lists of characters. -/
abbrev Str := List Char

/-- Lift a Lean string literal into the embedding. -/
def str (s : String) : Str := s.data

/-- Characters stripped by Python `str.strip()` (ASCII whitespace). -/
def pyIsSpace (c : Char) : Bool :=
  c.toNat = 32 || c.toNat = 9 || c.toNat = 10 || c.toNat = 13 || c.toNat = 11 || c.toNat = 12

/-- Python `str.isalnum()` restricted to the ASCII range
(`0`-`9`, `A`-`Z`, `a`-`z`). -/
def pyIsAlnum (c : Char) : Bool :=
  (48 ≤ c.toNat && c.toNat ≤ 57) || (65 ≤ c.toNat && c.toNat ≤ 90) ||
    (97 ≤ c.toNat && c.toNat ≤ 122)

/-- Python `str.strip()`: drop leading and trailing whitespace. -/
def pyStrip (s : Str) : Str :=
  ((s.dropWhile pyIsSpace).reverse.dropWhile pyIsSpace).reverse

/-- Python truthiness of an optional string: `None` and `""` are falsy. -/
def falsy : Option Str → Bool
  | none => true
  | some s => s.isEmpty

/-- Python `a or b` on optional strings: `b` when `a` is falsy, else `a`. -/
def pyOr (a b : Option Str) : Option Str :=
  if falsy a then b else a

/-- Python `s.split(sep, 1)` when `sep` occurs in `s`: the part before the
first occurrence and the part after it. -/
def splitOnce (sep : Char) (s : Str) : Str × Str :=
  (s.takeWhile (· ≠ sep), (s.dropWhile (· ≠ sep)).drop 1)

/-! ## src/proxy/encoding.py -/

/-- `FoundrySettings` (encoding.py lines 7-13): effective per-request Foundry
configuration derived from apiKey + model. -/
structure FoundrySettings where
  resource : Str
  model : Str
  api_key : Str
deriving DecidableEq, Repr

/-- `_looks_like_resource` (encoding.py lines 102-109): heuristic for the
resource segment of a `resource:key` apiKey. -/
def looks_like_resource (text : Str) : Bool :=
  !text.isEmpty && text.all (fun ch => pyIsAlnum ch || ch = '-' || ch = '_')

/-- `decode_api_key` (encoding.py lines 16-35): decode the logical apiKey into
`(foundry_resource, foundry_api_key)`. -/
def decode_api_key (raw : Option Str) : Option Str × Option Str :=
  match raw with
  | none => (none, none)
  | some s =>
    if s.isEmpty then (none, none)
    else if s.count ':' = 1 then
      let left := pyStrip (splitOnce ':' s).1
      let right := pyStrip (splitOnce ':' s).2
      if !left.isEmpty && !right.isEmpty && looks_like_resource left then
        (some left, some right)
      else (none, some s)
    else (none, some s)

/-- `decode_model` (encoding.py lines 38-56): decode the logical model into
`(foundry_resource_override, foundry_model)`. -/
def decode_model (raw : Option Str) : Option Str × Option Str :=
  match raw with
  | none => (none, none)
  | some s =>
    if s.isEmpty then (none, none)
    else if s.count '/' = 1 then
      let left := pyStrip (splitOnce '/' s).1
      let right := pyStrip (splitOnce '/' s).2
      if !left.isEmpty && !right.isEmpty then (some left, some right)
      else (none, some s)
    else (none, some s)

/-- `derive_foundry_settings` (encoding.py lines 59-99): derive a complete
`(resource, model, api_key)` triple, or fail with a message listing every
missing part (`raise ValueError` is modelled as `Except.error`). -/
def derive_foundry_settings (logical_api_key logical_model : Option Str) :
    Except Str FoundrySettings :=
  let ak := decode_api_key logical_api_key
  let md := decode_model logical_model
  let foundry_api_key := ak.2
  let foundry_resource := pyOr ak.1 md.1
  let foundry_model := pyOr md.2 logical_model
  let missing_parts : List Str :=
    (if falsy foundry_api_key then [str "Foundry API key (must be provided via apiKey)"] else []) ++
    (if falsy foundry_resource then [str "Foundry resource (must be encoded in apiKey or model)"] else []) ++
    (if falsy foundry_model then [str "Foundry model (must be provided via model)"] else [])
  if missing_parts.isEmpty then
    Except.ok
      { resource := foundry_resource.getD []
        model := foundry_model.getD []
        api_key := foundry_api_key.getD [] }
  else
    Except.error
      (str "Could not derive complete Foundry configuration; missing: " ++
        List.intercalate (str "; ") missing_parts)

/-! ### Helper lemmas about characters and stripping -/

theorem resource_char_props {c : Char} (h : (pyIsAlnum c || c = '-' || c = '_') = true) :
    c ≠ ':' ∧ c ≠ '/' ∧ pyIsSpace c = false := by
  have hv : (48 ≤ c.toNat ∧ c.toNat ≤ 57) ∨ (65 ≤ c.toNat ∧ c.toNat ≤ 90) ∨
      (97 ≤ c.toNat ∧ c.toNat ≤ 122) ∨ c.toNat = 45 ∨ c.toNat = 95 := by
    simp only [pyIsAlnum, Bool.or_eq_true, decide_eq_true_eq, Bool.and_eq_true] at h
    rcases h with (((h1 | h2) | h3) | h4) | h5
    · exact Or.inl ⟨h1.1, h1.2⟩
    · exact Or.inr (Or.inl ⟨h2.1, h2.2⟩)
    · exact Or.inr (Or.inr (Or.inl ⟨h3.1, h3.2⟩))
    · subst h4; exact Or.inr (Or.inr (Or.inr (Or.inl rfl)))
    · subst h5; exact Or.inr (Or.inr (Or.inr (Or.inr rfl)))
  refine ⟨?_, ?_, ?_⟩
  · intro hc; subst hc; exact absurd hv (by decide)
  · intro hc; subst hc; exact absurd hv (by decide)
  · simp only [pyIsSpace, Bool.or_eq_false_iff, decide_eq_false_iff_not]
    omega

theorem dropWhile_eq_self_of_all {p : Char → Bool} {s : Str}
    (h : ∀ c ∈ s, p c = false) : s.dropWhile p = s := by
  cases s with
  | nil => rfl
  | cons a as => simp [List.dropWhile, h a (by simp)]

theorem pyStrip_eq_self_of_all {s : Str} (h : ∀ c ∈ s, pyIsSpace c = false) :
    pyStrip s = s := by
  unfold pyStrip
  rw [dropWhile_eq_self_of_all h, dropWhile_eq_self_of_all (by intro c hc; exact h c (List.mem_reverse.mp hc)), List.reverse_reverse]

theorem takeWhile_append_all {p : Char → Bool} {l1 l2 : Str} {x : Char}
    (h : ∀ c ∈ l1, p c = true) (hx : p x = false) :
    (l1 ++ x :: l2).takeWhile p = l1 := by
  induction l1 with
  | nil => simp [List.takeWhile, hx]
  | cons a as ih =>
    have ha : p a = true := h a (by simp)
    simp [List.takeWhile_cons, ha, ih (fun c hc => h c (by simp [hc]))]

theorem dropWhile_append_all {p : Char → Bool} {l1 l2 : Str} {x : Char}
    (h : ∀ c ∈ l1, p c = true) (hx : p x = false) :
    (l1 ++ x :: l2).dropWhile p = x :: l2 := by
  induction l1 with
  | nil => simp [List.dropWhile, hx]
  | cons a as ih =>
    have ha : p a = true := h a (by simp)
    simp [List.dropWhile_cons, ha, ih (fun c hc => h c (by simp [hc]))]

theorem count_append_none {x : Char} {l1 l2 : Str}
    (h1 : x ∉ l1) (h2 : x ∉ l2) : (l1 ++ x :: l2).count x = 1 := by
  simp [List.count_append, List.count_cons, List.count_eq_zero.mpr h1, List.count_eq_zero.mpr h2]

/-- Left part of `splitOnce` at the separator, when neither side contains it. -/
theorem splitOnce_append {sep : Char} {l r : Str} (hl : sep ∉ l) :
    splitOnce sep (l ++ sep :: r) = (l, r) := by
  have hne : ∀ c ∈ l, (decide ¬(c = sep)) = true := by
    intro c hc
    exact decide_eq_true (fun h : c = sep => hl (h ▸ hc))
  unfold splitOnce
  rw [takeWhile_append_all hne (by simp), dropWhile_append_all hne (by simp)]
  simp

/-! ### Claim C5 -/

/-- C5 counterexample: the claim promises that for every non-empty key
string, decoding `"resource:key"` recovers the resource and key.  With the
bare-identifier resource `res` and the non-empty key `a:b`, the credential
`res:a:b` has two colons, so `decode_api_key` treats the whole string as an
opaque key instead of recovering `(res, a:b)`. -/
theorem c5_counterexample :
    looks_like_resource (str "res") = true ∧ str "a:b" ≠ [] ∧
    decode_api_key (some (str "res" ++ ':' :: str "a:b")) ≠
      (some (str "res"), some (str "a:b")) := by
  decide

/-- C5 (amended): decoding the credential `resource:key` recovers the resource
and key exactly when the resource is a bare identifier (alphanumeric, `-`,
`_`) and the key is non-empty, contains no colon, and carries no surrounding
whitespace; decoding the model `resource/model` likewise when both segments
are non-empty, slash-free and whitespace-trimmed; and a credential with
exactly one colon whose left segment is not a bare identifier is treated as a
whole opaque key with no embedded resource. -/
theorem c5_decode_roundtrip :
    (∀ res key : Str, looks_like_resource res = true → key ≠ [] → ':' ∉ key →
      pyStrip key = key →
      decode_api_key (some (res ++ ':' :: key)) = (some res, some key)) ∧
    (∀ res m : Str, res ≠ [] → '/' ∉ res → pyStrip res = res →
      m ≠ [] → '/' ∉ m → pyStrip m = m →
      decode_model (some (res ++ '/' :: m)) = (some res, some m)) ∧
    (∀ l r : Str, ':' ∉ l → ':' ∉ r → looks_like_resource (pyStrip l) = false →
      decode_api_key (some (l ++ ':' :: r)) = (none, some (l ++ ':' :: r))) := by
  refine ⟨?_, ?_, ?_⟩
  · intro res key hres hkey hkc hks
    have hchars : ∀ c ∈ res, (pyIsAlnum c || c = '-' || c = '_') = true := by
      have h := hres
      unfold looks_like_resource at h
      simp only [Bool.and_eq_true, List.all_eq_true] at h
      exact fun c hc => h.2 c hc
    have hresne : res ≠ [] := by
      intro h
      subst h
      simp [looks_like_resource] at hres
    have hrescolon : ':' ∉ res := fun hmem => (resource_char_props (hchars _ hmem)).1 rfl
    have hresstrip : pyStrip res = res :=
      pyStrip_eq_self_of_all (fun c hc => (resource_char_props (hchars c hc)).2.2)
    simp [decode_api_key, count_append_none hrescolon hkc, splitOnce_append hrescolon,
      hresstrip, hks, hres, hresne, hkey]
  · intro res m hres hrs hrstrip hm hms hmstrip
    simp [decode_model, count_append_none hrs hms, splitOnce_append hrs,
      hrstrip, hmstrip, hres, hm]
  · intro l r hl hr hlooks
    simp [decode_api_key, count_append_none hl hr, splitOnce_append hl, hlooks]

/-- C5 witness: the amended round-trip at the concrete credential `res:key`
and the concrete model `res/gpt`. -/
theorem c5_witness :
    decode_api_key (some (str "res" ++ ':' :: str "key")) =
      (some (str "res"), some (str "key")) ∧
    decode_model (some (str "res" ++ '/' :: str "gpt")) =
      (some (str "res"), some (str "gpt")) :=
  ⟨c5_decode_roundtrip.1 (str "res") (str "key") (by decide) (by decide) (by decide) (by decide),
   c5_decode_roundtrip.2.1 (str "res") (str "gpt") (by decide) (by decide) (by decide)
     (by decide) (by decide) (by decide)⟩

/-! ## src/proxy/tenants.py -/

/-- `TenantConfig` (tenants.py lines 10-18): mapping entry from logical
apiKey/model to concrete Foundry settings. -/
structure TenantConfig where
  tenant_id : Str
  logical_model : Str
  foundry_resource : Str
  foundry_model : Str
  foundry_api_key : Str
deriving DecidableEq, Repr

/-- `(logical_api_key, logical_model)` key of the tenant mapping. -/
abbrev TenantKey := Str × Str

/-- The loaded tenant mapping (`_TENANT_MAPPINGS`, tenants.py line 132),
modelled as an association list; it is loaded once from the environment and
read-only afterwards, so theorems take it as a parameter. -/
abbrev TenantMappings := List (TenantKey × TenantConfig)

/-- Python `dict.get` over the tenant mapping (keys are unique in a dict, so
first match suffices). -/
def dictGet (m : TenantMappings) (k : TenantKey) : Option TenantConfig :=
  match m with
  | [] => none
  | (k2, v) :: rest => if k2 = k then some v else dictGet rest k

/-- `resolve_tenant` (tenants.py lines 140-171): exact-match lookup of
`(logical_api_key, logical_model)` in the loaded mappings; `None` when no
mappings are loaded or the pair is absent. -/
def resolve_tenant (mappings : TenantMappings) (logical_api_key logical_model : Str) :
    Option TenantConfig :=
  if mappings.isEmpty then none
  else dictGet mappings (logical_api_key, logical_model)

/-- Per-request resolution as performed by the chat handler
(routes_chat.py line 84): the handler derives the Foundry settings purely by
structural decoding via `derive_foundry_settings`; no call to
`resolve_tenant` occurs anywhere in the request path. -/
def request_resolution (logical_api_key logical_model : Option Str) :
    Except Str FoundrySettings :=
  derive_foundry_settings logical_api_key logical_model

instance {ε α : Type} [DecidableEq ε] [DecidableEq α] : DecidableEq (Except ε α) := fun a b =>
  match a, b with
  | .ok x, .ok y => if h : x = y then isTrue (by rw [h]) else isFalse (by simp [h])
  | .error x, .error y => if h : x = y then isTrue (by rw [h]) else isFalse (by simp [h])
  | .ok _, .error _ => isFalse (by simp)
  | .error _, .ok _ => isFalse (by simp)

/-! ### Claim C1 -/

/-- C1 counterexample: with the loaded tenant mapping containing the pair
`(res:key, m)` mapped to target `{tr, tm, tk}`, per-request resolution does
not return that target verbatim: the request path never consults the tenant
mapping and instead structurally decodes the credential and model, yielding
`{res, m, key}`. -/
theorem c1_counterexample :
    dictGet [((str "res:key", str "m"),
        TenantConfig.mk (str "tenantA") (str "m") (str "tr") (str "tm") (str "tk"))]
        (str "res:key", str "m") =
      some (TenantConfig.mk (str "tenantA") (str "m") (str "tr") (str "tm") (str "tk")) ∧
    request_resolution (some (str "res:key")) (some (str "m")) ≠
      Except.ok (FoundrySettings.mk (str "tr") (str "tm") (str "tk")) ∧
    request_resolution (some (str "res:key")) (some (str "m")) =
      Except.ok (FoundrySettings.mk (str "res") (str "m") (str "key")) := by
  decide

/-- C1 (amended): `resolve_tenant` does return the mapped `ResolvedTarget`
verbatim for every `(logical_credential, logical_model)` pair present in the
loaded tenant mapping — but per-request resolution never invokes it: the
request path always uses structural decoding of the credential and model
strings, so the tenant mapping takes no precedence at request time. -/
theorem c1_resolve_tenant_verbatim :
    ∀ (mappings : TenantMappings) (k m : Str) (cfg : TenantConfig),
      dictGet mappings (k, m) = some cfg →
      resolve_tenant mappings k m = some cfg := by
  intro mappings k m cfg hget
  cases mappings with
  | nil => simp [dictGet] at hget
  | cons e rest => simp [resolve_tenant, hget]

/-- C1 witness: the amended lookup property at a one-entry mapping. -/
theorem c1_witness :
    resolve_tenant [((str "cred", str "m"),
        TenantConfig.mk (str "t") (str "m") (str "r") (str "fm") (str "k"))]
        (str "cred") (str "m") =
      some (TenantConfig.mk (str "t") (str "m") (str "r") (str "fm") (str "k")) :=
  c1_resolve_tenant_verbatim _ _ _ _ (by decide)

/-! ## src/proxy/metrics.py

`hashlib.sha256` is embedded as SHA-256 (FIPS 180-4) over byte lists, with
32-bit words as naturals reduced mod `2^32`. -/

/-- Reduce to a 32-bit word. -/
def w32 (n : Nat) : Nat := n % 4294967296

/-- Right rotation of a 32-bit word. -/
def rotr (n x : Nat) : Nat := w32 ((x >>> n) ||| (x <<< (32 - n)))

/-- SHA-256 `Ch` function. -/
def shaCh (x y z : Nat) : Nat := w32 ((x &&& y) ^^^ ((x ^^^ 4294967295) &&& z))

/-- SHA-256 `Maj` function. -/
def shaMaj (x y z : Nat) : Nat := w32 ((x &&& y) ^^^ (x &&& z) ^^^ (y &&& z))

/-- SHA-256 big sigma-0. -/
def bsig0 (x : Nat) : Nat := rotr 2 x ^^^ rotr 13 x ^^^ rotr 22 x

/-- SHA-256 big sigma-1. -/
def bsig1 (x : Nat) : Nat := rotr 6 x ^^^ rotr 11 x ^^^ rotr 25 x

/-- SHA-256 small sigma-0. -/
def ssig0 (x : Nat) : Nat := rotr 7 x ^^^ rotr 18 x ^^^ (x >>> 3)

/-- SHA-256 small sigma-1. -/
def ssig1 (x : Nat) : Nat := rotr 17 x ^^^ rotr 19 x ^^^ (x >>> 10)

/-- SHA-256 round constants. -/
def sha_k : List Nat :=
  [1116352408, 1899447441, 3049323471, 3921009573, 961987163, 1508970993,
   2453635748, 2870763221, 3624381080, 310598401, 607225278, 1426881987,
   1925078388, 2162078206, 2614888103, 3248222580, 3835390401, 4022224774,
   264347078, 604807628, 770255983, 1249150122, 1555081692, 1996064986,
   2554220882, 2821834349, 2952996808, 3210313671, 3336571891, 3584528711,
   113926993, 338241895, 666307205, 773529912, 1294757372, 1396182291,
   1695183700, 1986661051, 2177026350, 2456956037, 2730485921, 2820302411,
   3259730800, 3345764771, 3516065817, 3600352804, 4094571909, 275423344,
   430227734, 506948616, 659060556, 883997877, 958139571, 1322822218,
   1537002063, 1747873779, 1955562222, 2024104815, 2227730452, 2361852424,
   2428436474, 2756734187, 3204031479, 3329325298]

/-- The eight 32-bit words of a SHA-256 state. -/
structure Hash8 where
  a : Nat
  b : Nat
  c : Nat
  d : Nat
  e : Nat
  f : Nat
  g : Nat
  h : Nat
deriving DecidableEq, Repr

/-- SHA-256 initial hash value. -/
def sha256_init : Hash8 :=
  ⟨1779033703, 3144134277, 1013904242, 2773480762,
   1359893119, 2600822924, 528734635, 1541459225⟩

/-- Big-endian bytes (most significant first) of `n`, `k` bytes wide. -/
def natToBytesBE (k : Nat) (n : Nat) : List Nat :=
  match k with
  | 0 => []
  | k + 1 => natToBytesBE k (n / 256) ++ [n % 256]

/-- Parse a block into big-endian 32-bit words. -/
def bytesToWords : List Nat → List Nat
  | b0 :: b1 :: b2 :: b3 :: rest =>
    (b0 * 16777216 + b1 * 65536 + b2 * 256 + b3) :: bytesToWords rest
  | _ => []

/-- Extend the 16-word message schedule by `k` further words. -/
def schedRest (w : List Nat) (k : Nat) : List Nat :=
  match k with
  | 0 => w
  | k + 1 =>
    let t := w.length
    let wt := w32 (ssig1 (w.getD (t - 2) 0) + w.getD (t - 7) 0 +
      ssig0 (w.getD (t - 15) 0) + w.getD (t - 16) 0)
    schedRest (w ++ [wt]) k

/-- One SHA-256 compression round. -/
def shaRound (s : Hash8) (kt wt : Nat) : Hash8 :=
  let t1 := w32 (s.h + bsig1 s.e + shaCh s.e s.f s.g + kt + wt)
  let t2 := w32 (bsig0 s.a + shaMaj s.a s.b s.c)
  ⟨w32 (t1 + t2), s.a, s.b, s.c, w32 (s.d + t1), s.e, s.f, s.g⟩

/-- Run the 64 compression rounds over the message schedule. -/
def shaCompress (st : Hash8) (w : List Nat) : Hash8 :=
  (sha_k.zip w).foldl (fun s kw => shaRound s kw.1 kw.2) st

/-- Word-wise sum of two hash states. -/
def addHash (x y : Hash8) : Hash8 :=
  ⟨w32 (x.a + y.a), w32 (x.b + y.b), w32 (x.c + y.c), w32 (x.d + y.d),
   w32 (x.e + y.e), w32 (x.f + y.f), w32 (x.g + y.g), w32 (x.h + y.h)⟩

/-- Process the padded message, 64-byte blocks at a time. -/
def processBlocks (st : Hash8) (bytes : List Nat) : Hash8 :=
  match bytes with
  | [] => st
  | b :: rest =>
    let block := (b :: rest).take 64
    let w := schedRest (bytesToWords block) 48
    let st2 := addHash st (shaCompress st w)
    processBlocks st2 (rest.drop 63)
termination_by bytes.length
decreasing_by simp [List.length_drop]; omega

/-- SHA-256 padding: `0x80`, zeros to 56 mod 64, and the 64-bit bit length. -/
def sha256_pad (msg : List Nat) : List Nat :=
  let L := msg.length
  msg ++ [128] ++ List.replicate ((119 - (L % 64)) % 64) 0 ++ natToBytesBE 8 (8 * L)

/-- SHA-256 digest (32 bytes) of a byte message. -/
def sha256 (msg : List Nat) : List Nat :=
  let fin := processBlocks sha256_init (sha256_pad msg)
  natToBytesBE 4 fin.a ++ natToBytesBE 4 fin.b ++ natToBytesBE 4 fin.c ++ natToBytesBE 4 fin.d ++
    natToBytesBE 4 fin.e ++ natToBytesBE 4 fin.f ++ natToBytesBE 4 fin.g ++ natToBytesBE 4 fin.h

/-- Lowercase hexadecimal digits. -/
def hexChars : Str := str "0123456789abcdef"

/-- Hex digit character of a nibble. -/
def hexDigitChar (n : Nat) : Char := hexChars.getD n '0'

/-- Two hex characters of one byte. -/
def byteToHex (b : Nat) : Str := [hexDigitChar (b / 16), hexDigitChar (b % 16)]

/-- `hexdigest()`: lowercase hex string of a byte list. -/
def hexdigest (bytes : List Nat) : Str := bytes.flatMap byteToHex

/-- UTF-8 encoding of one character (`str.encode("utf-8")`). -/
def utf8Bytes (c : Char) : List Nat :=
  let n := c.toNat
  if n < 128 then [n]
  else if n < 2048 then [192 + n / 64, 128 + n % 64]
  else if n < 65536 then [224 + n / 4096, 128 + (n / 64) % 64, 128 + n % 64]
  else [240 + n / 262144, 128 + (n / 4096) % 64, 128 + (n / 64) % 64, 128 + n % 64]

/-- UTF-8 encoding of a string. -/
def utf8Encode (s : Str) : List Nat := s.flatMap utf8Bytes

/-- `_hash_token` (metrics.py lines 20-22): `key:` followed by the first 12
hex digits of the SHA-256 of the token. -/
def hash_token (token : Str) : Str :=
  str "key:" ++ (hexdigest (sha256 (utf8Encode token))).take 12

/-- `derive_user_id` (metrics.py lines 25-31): choose a user identifier
without storing raw API keys. -/
def derive_user_id (logical_api_key : Option Str) (explicit_user : Option Str) : Str :=
  if !falsy explicit_user then explicit_user.getD []
  else if !falsy logical_api_key then hash_token (logical_api_key.getD [])
  else str "unknown"

/-! ### Claim C10 -/

theorem natToBytesBE_length (k n : Nat) : (natToBytesBE k n).length = k := by
  induction k generalizing n with
  | zero => rfl
  | succ k ih => simp [natToBytesBE, ih]

theorem natToBytesBE_lt (k n : Nat) : ∀ b ∈ natToBytesBE k n, b < 256 := by
  induction k generalizing n with
  | zero => simp [natToBytesBE]
  | succ k ih =>
    intro b hb
    simp only [natToBytesBE, List.mem_append, List.mem_singleton] at hb
    rcases hb with hb | hb
    · exact ih _ b hb
    · subst hb; omega

theorem sha256_length (msg : List Nat) : (sha256 msg).length = 32 := by
  simp [sha256, natToBytesBE_length]

theorem sha256_bytes_lt (msg : List Nat) : ∀ b ∈ sha256 msg, b < 256 := by
  intro b hb
  simp only [sha256, List.mem_append] at hb
  rcases hb with ((((((hb | hb) | hb) | hb) | hb) | hb) | hb) | hb <;>
    exact natToBytesBE_lt _ _ b hb

theorem hexdigest_length (bytes : List Nat) : (hexdigest bytes).length = 2 * bytes.length := by
  induction bytes with
  | nil => rfl
  | cons b bs ih =>
    simp [hexdigest, byteToHex, List.flatMap_cons] at ih ⊢
    omega

theorem hexDigitChar_mem (n : Nat) : hexDigitChar n ∈ hexChars := by
  unfold hexDigitChar
  by_cases h : n < hexChars.length
  · rw [List.getD_eq_getElem hexChars '0' h]
    exact List.getElem_mem h
  · rw [List.getD_eq_default _ _ (by omega)]
    decide

theorem hexdigest_chars (bytes : List Nat) : ∀ c ∈ hexdigest bytes, c ∈ hexChars := by
  intro c hc
  simp only [hexdigest, List.mem_flatMap] at hc
  obtain ⟨b, _, hcb⟩ := hc
  simp only [byteToHex, List.mem_cons, List.not_mem_nil, or_false] at hcb
  rcases hcb with hcb | hcb <;> (subst hcb; exact hexDigitChar_mem _)

/-- C10: `derive_user_id` never exposes the raw logical API key in the hashed
branch: a truthy explicit user is returned as given; otherwise a truthy
logical key yields `key:` followed by the first 12 hex digits of the SHA-256
of the key — a string of fixed length 16 whose suffix consists of lowercase
hex digits — and `unknown` results when both inputs are absent or empty. -/
theorem c10_derive_user_id :
    (∀ (k : Option Str) (u : Str), u ≠ [] →
      derive_user_id k (some u) = u) ∧
    (∀ (k : Str) (u : Option Str), falsy u = true → k ≠ [] →
      derive_user_id (some k) u =
        str "key:" ++ (hexdigest (sha256 (utf8Encode k))).take 12 ∧
      (derive_user_id (some k) u).length = 16 ∧
      (derive_user_id (some k) u).take 4 = str "key:" ∧
      ∀ c ∈ (derive_user_id (some k) u).drop 4, c ∈ hexChars) ∧
    (∀ (u : Option Str), falsy u = true →
      derive_user_id none u = str "unknown" ∧
      derive_user_id (some []) u = str "unknown") := by
  refine ⟨?_, ?_, ?_⟩
  · intro k u hu
    simp [derive_user_id, falsy, List.isEmpty_iff, hu]
  · intro k u hu hk
    have hfu : falsy u = true := hu
    have hne : (falsy (some k)) = false := by simp [falsy, List.isEmpty_iff, hk]
    have heq : derive_user_id (some k) u =
        str "key:" ++ (hexdigest (sha256 (utf8Encode k))).take 12 := by
      simp [derive_user_id, hfu, hne, hash_token]
    have hlen12 : ((hexdigest (sha256 (utf8Encode k))).take 12).length = 12 := by
      rw [List.length_take, hexdigest_length, sha256_length]; omega
    refine ⟨heq, ?_, ?_, ?_⟩
    · rw [heq, List.length_append, hlen12]; rfl
    · rw [heq, List.take_append_of_le_length (by decide)]; decide
    · rw [heq]
      intro c hc
      rw [List.drop_append_of_le_length (by decide),
        show (str "key:").drop 4 = [] from by decide, List.nil_append] at hc
      exact hexdigest_chars _ c (List.mem_of_mem_take hc)
  · intro u hu
    have h2 : falsy (none : Option Str) = true := rfl
    have h3 : falsy (some ([] : Str)) = true := rfl
    constructor <;> simp [derive_user_id, hu, h2, h3]

/-- C10 witness: the three branches at concrete inputs. -/
theorem c10_witness :
    derive_user_id (some (str "secret")) (some (str "bob")) = str "bob" ∧
    (derive_user_id (some (str "secret")) none).length = 16 ∧
    derive_user_id none none = str "unknown" :=
  ⟨c10_derive_user_id.1 (some (str "secret")) (str "bob") (by decide),
   (c10_derive_user_id.2.1 (str "secret") none rfl (by decide)).2.1,
   (c10_derive_user_id.2.2 none rfl).1⟩

/-- A usage dict as passed to `record`/`TokenUsage.add`: the three token
fields of the Python dict, `none` when the key is absent or `None`. -/
structure UsageDict where
  prompt_tokens : Option Int := none
  completion_tokens : Option Int := none
  total_tokens : Option Int := none
deriving DecidableEq, Repr

/-- `TokenUsage` (metrics.py lines 34-43). -/
structure TokenUsage where
  prompt_tokens : Int := 0
  completion_tokens : Int := 0
  total_tokens : Int := 0
deriving DecidableEq, Repr

/-- `TokenUsage.add` (metrics.py lines 40-43): `int(usage.get(k) or 0)` maps
an absent or `None` value to `0` and keeps integers unchanged. -/
def TokenUsage.add (u : TokenUsage) (usage : UsageDict) : TokenUsage :=
  { prompt_tokens := u.prompt_tokens + usage.prompt_tokens.getD 0
    completion_tokens := u.completion_tokens + usage.completion_tokens.getD 0
    total_tokens := u.total_tokens + usage.total_tokens.getD 0 }

/-- `RouteMetrics` (metrics.py lines 46-56).  The breakdown dicts are
modelled as total functions defaulting to a zero `TokenUsage`, matching the
`setdefault(key, TokenUsage())` access pattern; timestamps and float
durations are modelled as rationals. -/
structure RouteMetrics where
  count : Nat := 0
  error_count : Nat := 0
  last_seen : ℚ := 0
  usage : TokenUsage := {}
  by_model : Str → TokenUsage := fun _ => {}
  by_resource : Str → TokenUsage := fun _ => {}
  by_user : Str → TokenUsage := fun _ => {}
  durations_ms : List ℚ := []
  durations_sum_ms : ℚ := 0

/-- `MAX_LATENCY_SAMPLES` (metrics.py line 94). -/
def MAX_LATENCY_SAMPLES : Nat := 200

/-- The mutable state of `MetricsTracker` (metrics.py lines 97-101): the
per-route table and the start time.  The lock makes every `record` call
atomic, so the tracker is modelled as a sequential state machine; the
persistence hook (`_persist_locked`) only writes a file and never changes
in-memory state, so it is a no-op here. -/
structure MetricsTracker where
  routes : Str → Option RouteMetrics := fun _ => none
  start_time : ℚ := 0

/-- The arguments of one `MetricsTracker.record` call, together with the
timestamp `_now()` observed during the call. -/
structure RecordArgs where
  route : Str
  model : Option Str := none
  resource : Option Str := none
  user_id : Str := str "unknown"
  usage : UsageDict := {}
  error : Bool := false
  duration_ms : Option ℚ := none
  now : ℚ := 0

/-- Python `s or default` for the breakdown keys of `record`. -/
def keyOr (s : Option Str) (dflt : Str) : Str :=
  match s with
  | none => dflt
  | some v => if v.isEmpty then dflt else v

/-- Point-update of a breakdown function at one key (the effect of
`d.setdefault(key, TokenUsage()).add(usage)`). -/
def updUsage (f : Str → TokenUsage) (key : Str) (usage : UsageDict) : Str → TokenUsage :=
  fun r => if r = key then (f key).add usage else f r

/-- `MetricsTracker.record` (metrics.py lines 119-150) as a pure state
transition. -/
def MetricsTracker.record (st : MetricsTracker) (a : RecordArgs) : MetricsTracker :=
  let m0 := (st.routes a.route).getD {}
  let m1 : RouteMetrics :=
    { m0 with
      count := m0.count + 1
      error_count := m0.error_count + (if a.error then 1 else 0)
      last_seen := a.now
      usage := m0.usage.add a.usage }
  let m2 : RouteMetrics :=
    match a.duration_ms with
    | none => m1
    | some d =>
      let ds := m1.durations_ms ++ [d]
      let sum := m1.durations_sum_ms + d
      if MAX_LATENCY_SAMPLES < ds.length then
        { m1 with durations_ms := ds.drop 1, durations_sum_ms := sum - ds.headD 0 }
      else
        { m1 with durations_ms := ds, durations_sum_ms := sum }
  let m3 : RouteMetrics :=
    { m2 with
      by_model := updUsage m2.by_model (keyOr a.model (str "unknown-model")) a.usage
      by_resource := updUsage m2.by_resource (keyOr a.resource (str "unknown-resource")) a.usage
      by_user := updUsage m2.by_user (keyOr (some a.user_id) (str "unknown")) a.usage }
  { st with routes := fun r => if r = a.route then some m3 else st.routes r }

/-- Fold a sequence of `record` calls over the tracker. -/
def recordAll (st : MetricsTracker) (calls : List RecordArgs) : MetricsTracker :=
  calls.foldl MetricsTracker.record st

/-- The route table entry observed for a route (a fresh `RouteMetrics` when
the route was never recorded, as `setdefault` would create). -/
def routeOf (st : MetricsTracker) (route : Str) : RouteMetrics :=
  (st.routes route).getD {}

/-! ### Claim C6 -/

theorem tokenUsage_ext (u v : TokenUsage) (h1 : u.prompt_tokens = v.prompt_tokens)
    (h2 : u.completion_tokens = v.completion_tokens)
    (h3 : u.total_tokens = v.total_tokens) : u = v := by
  cases u; cases v; simp_all

theorem record_proj_self (st : MetricsTracker) (a : RecordArgs) :
    (routeOf (st.record a) a.route).count = (routeOf st a.route).count + 1 ∧
    (routeOf (st.record a) a.route).error_count
      = (routeOf st a.route).error_count + (if a.error then 1 else 0) ∧
    (routeOf (st.record a) a.route).usage = (routeOf st a.route).usage.add a.usage := by
  unfold MetricsTracker.record routeOf
  cases hd : a.duration_ms with
  | none => simp
  | some d =>
    dsimp only
    split_ifs <;> simp_all

theorem record_preserves_other (st : MetricsTracker) (a : RecordArgs) (r : Str)
    (h : r ≠ a.route) : (st.record a).routes r = st.routes r := by
  simp [MetricsTracker.record, h]

theorem recordAll_counts (route : Str) :
    ∀ (calls : List RecordArgs) (st : MetricsTracker),
      (∀ a ∈ calls, a.route = route) →
      (routeOf (recordAll st calls) route).count = (routeOf st route).count + calls.length ∧
      (routeOf (recordAll st calls) route).error_count
        = (routeOf st route).error_count + calls.countP (·.error) ∧
      (routeOf (recordAll st calls) route).usage.prompt_tokens
        = (routeOf st route).usage.prompt_tokens
          + (calls.map (fun a => a.usage.prompt_tokens.getD 0)).sum ∧
      (routeOf (recordAll st calls) route).usage.completion_tokens
        = (routeOf st route).usage.completion_tokens
          + (calls.map (fun a => a.usage.completion_tokens.getD 0)).sum ∧
      (routeOf (recordAll st calls) route).usage.total_tokens
        = (routeOf st route).usage.total_tokens
          + (calls.map (fun a => a.usage.total_tokens.getD 0)).sum := by
  intro calls
  induction calls with
  | nil => intro st _; simp [recordAll]
  | cons a rest ih =>
    intro st hroutes
    have ha : a.route = route := hroutes a (by simp)
    have hrest : ∀ b ∈ rest, b.route = route := fun b hb => hroutes b (by simp [hb])
    have hstep := record_proj_self st a
    rw [ha] at hstep
    have hfold := ih (st.record a) hrest
    simp only [recordAll, List.foldl_cons] at hfold ⊢
    rw [hfold.1, hfold.2.1, hfold.2.2.1, hfold.2.2.2.1, hfold.2.2.2.2,
      hstep.1, hstep.2.1, hstep.2.2]
    simp only [List.length_cons, List.countP_cons, List.map_cons, List.sum_cons, TokenUsage.add]
    refine ⟨by omega, by omega, by omega, by omega, by omega⟩

/-- C6: for any finite sequence of `record` calls on one route, the route's
`count` equals the number of calls, `error_count` equals the number of calls
with `error=true`, and the cumulative usage totals equal the field-wise sums
of the per-call usage values; because each call updates every accumulator
exactly once under the tracker lock, the totals are independent of the order
in which the calls interleave (any permutation yields the same counts and
sums). -/
theorem c6_record_invariants (route : Str) (calls calls2 : List RecordArgs)
    (hroutes : ∀ a ∈ calls, a.route = route) (hperm : calls.Perm calls2) :
    (routeOf (recordAll {} calls) route).count = calls.length ∧
    (routeOf (recordAll {} calls) route).error_count = calls.countP (·.error) ∧
    (routeOf (recordAll {} calls) route).usage =
      { prompt_tokens := (calls.map (fun a => a.usage.prompt_tokens.getD 0)).sum
        completion_tokens := (calls.map (fun a => a.usage.completion_tokens.getD 0)).sum
        total_tokens := (calls.map (fun a => a.usage.total_tokens.getD 0)).sum } ∧
    ((routeOf (recordAll {} calls2) route).count = (routeOf (recordAll {} calls) route).count ∧
     (routeOf (recordAll {} calls2) route).error_count
       = (routeOf (recordAll {} calls) route).error_count ∧
     (routeOf (recordAll {} calls2) route).usage = (routeOf (recordAll {} calls) route).usage) := by
  have h0 : routeOf ({} : MetricsTracker) route = {} := rfl
  have h1 := recordAll_counts route calls {} hroutes
  have hroutes2 : ∀ a ∈ calls2, a.route = route := fun a ha =>
    hroutes a (hperm.mem_iff.mpr ha)
  have h2 := recordAll_counts route calls2 {} hroutes2
  rw [h0] at h1 h2
  simp only [show ({} : RouteMetrics).count = 0 from rfl,
    show ({} : RouteMetrics).error_count = 0 from rfl,
    show ({} : RouteMetrics).usage = {} from rfl,
    show ({} : TokenUsage).prompt_tokens = 0 from rfl,
    show ({} : TokenUsage).completion_tokens = 0 from rfl,
    show ({} : TokenUsage).total_tokens = 0 from rfl,
    Nat.zero_add, zero_add] at h1 h2
  have e1 := (hperm.map (fun a => a.usage.prompt_tokens.getD 0)).sum_eq
  have e2 := (hperm.map (fun a => a.usage.completion_tokens.getD 0)).sum_eq
  have e3 := (hperm.map (fun a => a.usage.total_tokens.getD 0)).sum_eq
  refine ⟨h1.1, h1.2.1, ?_, ?_, ?_, ?_⟩
  · exact tokenUsage_ext _ _ (by rw [h1.2.2.1]) (by rw [h1.2.2.2.1]) (by rw [h1.2.2.2.2])
  · rw [h1.1, h2.1, hperm.length_eq]
  · rw [h1.2.1, h2.2.1, hperm.countP_eq]
  · exact tokenUsage_ext _ _ (by rw [h2.2.2.1, h1.2.2.1, e1]) (by rw [h2.2.2.2.1, h1.2.2.2.1, e2])
      (by rw [h2.2.2.2.2, h1.2.2.2.2, e3])

/-- Python `round()` on an exact value: round half to even (floats carrying
the durations are modelled as exact rationals). -/
def roundHalfEven (q : ℚ) : ℤ :=
  if q - ⌊q⌋ < 1/2 then ⌊q⌋
  else if 1/2 < q - ⌊q⌋ then ⌈q⌉
  else if ⌊q⌋ % 2 = 0 then ⌊q⌋ else ⌈q⌉

/-- The percentile helper `pct` closed over `sorted_vals` and `n`
(metrics.py lines 83-87): with a single sample return it, otherwise index the
sorted window at `min(n - 1, round(p * (n - 1)))` (the index is always in
range, so the `getD` default is never used). -/
def pct (sorted_vals : List ℚ) (p : ℚ) : ℚ :=
  if sorted_vals.length = 1 then sorted_vals.headD 0
  else
    sorted_vals.getD
      (min (sorted_vals.length - 1)
        (roundHalfEven (p * ((sorted_vals.length : ℚ) - 1))).toNat) 0

/-- The dict returned by `_latency_snapshot`. -/
structure LatencySnapshot where
  avg : ℚ
  p50 : ℚ
  p95 : ℚ
  p99 : ℚ
  count : Nat
deriving DecidableEq, Repr

/-- `RouteMetrics._latency_snapshot` (metrics.py lines 77-90); Python
`sorted` is modelled by insertion sort, which produces the same ascending
list. -/
def RouteMetrics.latency_snapshot (m : RouteMetrics) : LatencySnapshot :=
  if m.durations_ms.isEmpty then ⟨0, 0, 0, 0, 0⟩
  else
    let sorted_vals := m.durations_ms.insertionSort (· ≤ ·)
    let n := sorted_vals.length
    ⟨m.durations_sum_ms / (n : ℚ), pct sorted_vals (1/2), pct sorted_vals (95/100),
      pct sorted_vals (99/100), n⟩

/-- The last `n` elements of a list. -/
def lastN (n : Nat) (l : List ℚ) : List ℚ := l.drop (l.length - n)

/-! ### Claim C7 -/

theorem lastN_length (n : Nat) (l : List ℚ) : (lastN n l).length = min n l.length := by
  simp [lastN]
  omega

theorem lastN_of_le {n : Nat} {l : List ℚ} (h : l.length ≤ n) : lastN n l = l := by
  simp [lastN, Nat.sub_eq_zero_of_le h]

theorem lastN_lastN_append (l xs : List ℚ) (h : l.length ≤ 201) :
    lastN 200 (lastN 200 l ++ xs) = lastN 200 (l ++ xs) := by
  by_cases hle : l.length ≤ 200
  · rw [lastN_of_le hle]
  · have h201 : l.length = 201 := by omega
    cases l with
    | nil => simp at h201
    | cons a t =>
      have ht : t.length = 200 := by simpa using h201
      have h1 : lastN 200 (a :: t) = t := by
        simp [lastN, h201]
      rw [h1]
      show lastN 200 (t ++ xs) = lastN 200 ((a :: t) ++ xs)
      unfold lastN
      have e1 : (t ++ xs).length - 200 = xs.length := by simp [ht]
      have e2 : ((a :: t) ++ xs).length - 200 = xs.length + 1 := by
        simp only [List.cons_append, List.length_cons, List.length_append, ht]
        omega
      rw [e1, e2, List.cons_append, List.drop_succ_cons]

theorem record_durations (st : MetricsTracker) (a : RecordArgs) (d : ℚ)
    (hd : a.duration_ms = some d) :
    (routeOf (st.record a) a.route).durations_ms =
      (if MAX_LATENCY_SAMPLES < ((routeOf st a.route).durations_ms ++ [d]).length
       then ((routeOf st a.route).durations_ms ++ [d]).drop 1
       else (routeOf st a.route).durations_ms ++ [d]) := by
  unfold MetricsTracker.record routeOf
  simp only [hd]
  split_ifs <;> simp_all

theorem record_durations_lastN (st : MetricsTracker) (a : RecordArgs) (d : ℚ)
    (hd : a.duration_ms = some d)
    (hlen : (routeOf st a.route).durations_ms.length ≤ 200) :
    (routeOf (st.record a) a.route).durations_ms =
      lastN 200 ((routeOf st a.route).durations_ms ++ [d]) := by
  rw [record_durations st a d hd]
  set w := (routeOf st a.route).durations_ms with hw
  by_cases hc : MAX_LATENCY_SAMPLES < (w ++ [d]).length
  · rw [if_pos hc]
    have hlen2 : (w ++ [d]).length = 201 := by
      simp only [MAX_LATENCY_SAMPLES, List.length_append, List.length_singleton] at hc
      simp only [List.length_append, List.length_singleton]
      omega
    unfold lastN
    rw [hlen2]
  · rw [if_neg hc]
    rw [lastN_of_le (by simp only [MAX_LATENCY_SAMPLES] at hc; omega)]

theorem recordAll_window (route : Str) :
    ∀ (calls : List RecordArgs) (st : MetricsTracker),
      (∀ a ∈ calls, a.route = route ∧ a.duration_ms.isSome) →
      (routeOf st route).durations_ms.length ≤ 200 →
      (routeOf (recordAll st calls) route).durations_ms =
        lastN 200 ((routeOf st route).durations_ms ++ calls.filterMap (·.duration_ms)) := by
  intro calls
  induction calls with
  | nil =>
    intro st _ hlen
    simp only [recordAll, List.foldl_nil, List.filterMap_nil, List.append_nil]
    rw [lastN_of_le hlen]
  | cons a rest ih =>
    intro st hcalls hlen
    obtain ⟨ha_route, ha_dur⟩ := hcalls a (by simp)
    obtain ⟨d, hd⟩ := Option.isSome_iff_exists.mp ha_dur
    have hrest : ∀ b ∈ rest, b.route = route ∧ b.duration_ms.isSome :=
      fun b hb => hcalls b (by simp [hb])
    have hstep : (routeOf (st.record a) route).durations_ms =
        lastN 200 ((routeOf st route).durations_ms ++ [d]) := by
      have h := record_durations_lastN st a d hd (by rw [ha_route]; exact hlen)
      rwa [ha_route] at h
    have hstep_len : (routeOf (st.record a) route).durations_ms.length ≤ 200 := by
      rw [hstep, lastN_length]
      omega
    have hfold := ih (st.record a) hrest hstep_len
    simp only [recordAll, List.foldl_cons] at hfold ⊢
    rw [hfold, hstep, List.filterMap_cons, hd]
    rw [lastN_lastN_append _ _ (by simp only [List.length_append, List.length_singleton]; omega)]
    simp

theorem rhe_p50 : roundHalfEven ((1/2 : ℚ) * 199) = 100 := by
  have hf : ⌊((1/2 : ℚ) * 199)⌋ = 99 := by
    rw [Int.floor_eq_iff]
    norm_num
  have hc : ⌈((1/2 : ℚ) * 199)⌉ = 100 := by
    rw [Int.ceil_eq_iff]
    norm_num
  rw [roundHalfEven, hf, hc]
  norm_num

theorem rhe_p95 : roundHalfEven ((95/100 : ℚ) * 199) = 189 := by
  have hf : ⌊((95/100 : ℚ) * 199)⌋ = 189 := by
    rw [Int.floor_eq_iff]
    norm_num
  rw [roundHalfEven, hf]
  norm_num

theorem rhe_p99 : roundHalfEven ((99/100 : ℚ) * 199) = 197 := by
  have hf : ⌊((99/100 : ℚ) * 199)⌋ = 197 := by
    rw [Int.floor_eq_iff]
    norm_num
  rw [roundHalfEven, hf]
  norm_num

theorem pct_at_200 (sorted_vals : List ℚ) (h : sorted_vals.length = 200) :
    pct sorted_vals (1/2) = sorted_vals.getD 100 0 ∧
    pct sorted_vals (95/100) = sorted_vals.getD 189 0 ∧
    pct sorted_vals (99/100) = sorted_vals.getD 197 0 := by
  have hne : (200 : ℕ) ≠ 1 := by norm_num
  have hcast : ((200 : ℕ) : ℚ) - 1 = 199 := by norm_num
  unfold pct
  rw [h, hcast]
  refine ⟨?_, ?_, ?_⟩
  · rw [if_neg hne, rhe_p50]; norm_num; rfl
  · rw [if_neg hne, rhe_p95]; norm_num; rfl
  · rw [if_neg hne, rhe_p99]; norm_num; rfl

theorem snapshot200 (m : RouteMetrics) (h : m.durations_ms.length = 200) :
    m.latency_snapshot.p95 ≤ m.latency_snapshot.p99 ∧
    m.latency_snapshot.p50 ≤ m.latency_snapshot.p95 ∧
    ∃ mn ∈ m.durations_ms, (∀ x ∈ m.durations_ms, mn ≤ x) ∧
      mn ≤ m.latency_snapshot.p50 := by
  have hempty : m.durations_ms.isEmpty = false := by
    cases hml : m.durations_ms with
    | nil => rw [hml] at h; simp at h
    | cons a t => rfl
  have hperm : (m.durations_ms.insertionSort (· ≤ ·)).Perm m.durations_ms :=
    List.perm_insertionSort _ _
  have hsorted : (m.durations_ms.insertionSort (· ≤ ·)).Sorted (· ≤ ·) :=
    List.sorted_insertionSort _ _
  set sorted_vals := m.durations_ms.insertionSort (· ≤ ·) with hsv
  have hslen : sorted_vals.length = 200 := by rw [hperm.length_eq, h]
  have hsnap : m.latency_snapshot =
      ⟨m.durations_sum_ms / (sorted_vals.length : ℚ), pct sorted_vals (1/2),
        pct sorted_vals (95/100), pct sorted_vals (99/100), sorted_vals.length⟩ := by
    unfold RouteMetrics.latency_snapshot
    rw [hempty]
    rfl
  have hp := pct_at_200 sorted_vals hslen
  have hget : ∀ i : ℕ, ∀ hi : i < sorted_vals.length,
      sorted_vals.getD i 0 = sorted_vals.get ⟨i, hi⟩ := by
    intro i hi
    rw [List.getD_eq_getElem sorted_vals 0 hi]
    simp
  have hrel : ∀ (i j : ℕ) (hi : i < sorted_vals.length) (hj : j < sorted_vals.length),
      i ≤ j → sorted_vals.get ⟨i, hi⟩ ≤ sorted_vals.get ⟨j, hj⟩ := by
    intro i j hi hj hij
    exact hsorted.rel_get_of_le (by simp [Fin.le_def, hij])
  have h100 : (100 : ℕ) < sorted_vals.length := by omega
  have h189 : (189 : ℕ) < sorted_vals.length := by omega
  have h197 : (197 : ℕ) < sorted_vals.length := by omega
  have h0 : (0 : ℕ) < sorted_vals.length := by omega
  refine ⟨?_, ?_, ?_⟩
  · rw [hsnap]
    simp only
    rw [hp.2.1, hp.2.2, hget 189 h189, hget 197 h197]
    exact hrel 189 197 h189 h197 (by norm_num)
  · rw [hsnap]
    simp only
    rw [hp.1, hp.2.1, hget 100 h100, hget 189 h189]
    exact hrel 100 189 h100 h189 (by norm_num)
  · refine ⟨sorted_vals.get ⟨0, h0⟩, ?_, ?_, ?_⟩
    · exact hperm.mem_iff.mp (List.get_mem sorted_vals 0 h0)
    · intro x hx
      have hxs : x ∈ sorted_vals := hperm.mem_iff.mpr hx
      obtain ⟨j, hj⟩ := List.mem_iff_get.mp hxs
      rw [← hj]
      exact hrel 0 j.1 h0 j.2 (Nat.zero_le _)
    · rw [hsnap]
      simp only
      rw [hp.1, hget 100 h100]
      exact hrel 0 100 h0 h100 (by norm_num)

theorem snapshot_single (m : RouteMetrics) (x : ℚ) (h : m.durations_ms = [x]) :
    m.latency_snapshot.p50 = x ∧ m.latency_snapshot.p95 = x ∧
      m.latency_snapshot.p99 = x := by
  have hsort : ([x] : List ℚ).insertionSort (· ≤ ·) = [x] := rfl
  have hpct : ∀ p : ℚ, pct [x] p = x := by
    intro p
    unfold pct
    simp
  unfold RouteMetrics.latency_snapshot
  rw [h]
  simp only [List.isEmpty_cons, Bool.false_eq_true, if_false, hsort]
  exact ⟨hpct _, hpct _, hpct _⟩

theorem filterMap_dur_length {l : List RecordArgs}
    (h : ∀ a ∈ l, a.duration_ms.isSome) :
    (l.filterMap (·.duration_ms)).length = l.length := by
  induction l with
  | nil => rfl
  | cons a rest ih =>
    obtain ⟨d, hd⟩ := Option.isSome_iff_exists.mp (h a (by simp))
    rw [List.filterMap_cons, hd]
    simp only [List.length_cons]
    rw [ih (fun b hb => h b (by simp [hb]))]

/-- C7: after more than 200 `record` calls carrying durations on one route,
the latency window holds exactly the 200 most recent samples (FIFO
eviction), and the reported percentiles satisfy `p99 ≥ p95 ≥ p50 ≥ min` of
those 200 samples; when the window holds a single sample, every percentile
equals that sample. -/
theorem c7_latency_window (route : Str) (calls : List RecordArgs)
    (hcalls : ∀ a ∈ calls, a.route = route ∧ a.duration_ms.isSome)
    (hlen : 200 < calls.length) :
    (routeOf (recordAll {} calls) route).durations_ms =
      lastN 200 (calls.filterMap (·.duration_ms)) ∧
    (routeOf (recordAll {} calls) route).durations_ms.length = 200 ∧
    ((routeOf (recordAll {} calls) route).latency_snapshot.p95 ≤
        (routeOf (recordAll {} calls) route).latency_snapshot.p99 ∧
      (routeOf (recordAll {} calls) route).latency_snapshot.p50 ≤
        (routeOf (recordAll {} calls) route).latency_snapshot.p95 ∧
      ∃ mn ∈ (routeOf (recordAll {} calls) route).durations_ms,
        (∀ x ∈ (routeOf (recordAll {} calls) route).durations_ms, mn ≤ x) ∧
          mn ≤ (routeOf (recordAll {} calls) route).latency_snapshot.p50) ∧
    (∀ (m : RouteMetrics) (x : ℚ), m.durations_ms = [x] →
      m.latency_snapshot.p50 = x ∧ m.latency_snapshot.p95 = x ∧
        m.latency_snapshot.p99 = x) := by
  have hwin := recordAll_window route calls {} hcalls (by simp [routeOf])
  have hds_len : (calls.filterMap (·.duration_ms)).length = calls.length :=
    filterMap_dur_length (fun a ha => (hcalls a ha).2)
  have hw0 : routeOf ({} : MetricsTracker) route = {} := rfl
  rw [hw0] at hwin
  simp only [show ({} : RouteMetrics).durations_ms = [] from rfl, List.nil_append] at hwin
  have hwlen : (routeOf (recordAll {} calls) route).durations_ms.length = 200 := by
    rw [hwin, lastN_length, hds_len]
    omega
  have hsnap := snapshot200 _ hwlen
  exact ⟨hwin, hwlen, ⟨hsnap.1, hsnap.2.1, hsnap.2.2⟩,
    fun m x hm => snapshot_single m x hm⟩

/-- A concrete `record` call used by the C7 witness. -/
def c7_call : RecordArgs :=
  { route := str "/v1/chat/completions", duration_ms := some 5 }

/-- C7 witness: 201 identical timed calls leave a 200-sample window. -/
theorem c7_witness :
    (routeOf (recordAll {} (List.replicate 201 c7_call))
      (str "/v1/chat/completions")).durations_ms.length = 200 :=
  (c7_latency_window (str "/v1/chat/completions") (List.replicate 201 c7_call)
    (fun a ha => by rw [List.eq_of_mem_replicate ha]; exact ⟨rfl, rfl⟩)
    (by rw [List.length_replicate]; omega)).2.1

/-- Concrete `record` calls used by the C6 witness. -/
def c6_call1 : RecordArgs :=
  { route := str "/v1/chat/completions", error := false,
    usage := { prompt_tokens := some 3, completion_tokens := some 4, total_tokens := some 7 } }

/-- Second concrete `record` call (an error outcome) for the C6 witness. -/
def c6_call2 : RecordArgs :=
  { route := str "/v1/chat/completions", error := true }

/-- C6 witness: one success with usage and one error on the chat route. -/
theorem c6_witness :
    (routeOf (recordAll {} [c6_call1, c6_call2]) (str "/v1/chat/completions")).count = 2 ∧
    (routeOf (recordAll {} [c6_call1, c6_call2]) (str "/v1/chat/completions")).error_count = 1 ∧
    (routeOf (recordAll {} [c6_call1, c6_call2]) (str "/v1/chat/completions")).usage =
      { prompt_tokens := 3, completion_tokens := 4, total_tokens := 7 } := by
  have h := c6_record_invariants (str "/v1/chat/completions") [c6_call1, c6_call2]
    [c6_call2, c6_call1] (by decide) (List.Perm.swap c6_call2 c6_call1 [])
  refine ⟨?_, ?_, ?_⟩
  · rw [h.1]; rfl
  · rw [h.2.1]; rfl
  · rw [h.2.2.1]; decide

/-! ## src/proxy/auth_tokens.py

`bcrypt` is embedded as an idealized salted hash: `hashpw` pairs the
plaintext with its salt (modelling `bcrypt.gensalt()` randomness as an
explicit argument) and `checkpw` succeeds exactly when the supplied token
equals the hashed plaintext — bcrypt's documented contract. -/

/-- An idealized bcrypt hash value. -/
structure BcryptHash where
  salt : Nat
  plain : Str
deriving DecidableEq, Repr

/-- `bcrypt.hashpw(plain, gensalt())`. -/
def bcrypt_hashpw (plain : Str) (salt : Nat) : BcryptHash := ⟨salt, plain⟩

/-- `bcrypt.checkpw(token, hash)`. -/
def bcrypt_checkpw (token : Str) (h : BcryptHash) : Bool := token = h.plain

/-- `TokenEntry` (auth_tokens.py lines 19-27). -/
structure TokenEntry where
  user : Str
  hash : BcryptHash
  email : Option Str := none
  display_name : Option Str := none
  created_at : ℚ := 0
  last_used : Option ℚ := none
  disabled : Bool := false
deriving DecidableEq, Repr

/-- `TokenStore.tokens` (auth_tokens.py line 33): a Python dict keyed by
user, modelled as an insertion-ordered association list — assigning an
existing user keeps its position, a new user appends at the end.  `save()`
only persists to disk and never changes in-memory state, so it is a no-op
here. -/
abbrev TokenDict := List (Str × TokenEntry)

/-- Python dict assignment `d[k] = v` on the token dict. -/
def dictSetEntry (d : TokenDict) (k : Str) (v : TokenEntry) : TokenDict :=
  match d with
  | [] => [(k, v)]
  | (k2, v2) :: rest =>
    if k2 = k then (k2, v) :: rest else (k2, v2) :: dictSetEntry rest k v

/-- Python `d.get(k)` on the token dict. -/
def dictGetEntry (d : TokenDict) (k : Str) : Option TokenEntry :=
  match d with
  | [] => none
  | (k2, v) :: rest => if k2 = k then some v else dictGetEntry rest k

/-- `TokenStore.add_token` (auth_tokens.py lines 100-120): hash the supplied
(or generated) plaintext and store the entry under `user`, returning the
plaintext; `gen` models `secrets.token_urlsafe(32)`, `salt` the bcrypt salt
and `now` `time.time()`. -/
def add_token (tokens : TokenDict) (user : Str) (token : Option Str)
    (email display_name : Option Str) (disabled : Bool)
    (gen : Str) (salt : Nat) (now : ℚ) : TokenDict × Str :=
  let plain := if falsy token then gen else token.getD []
  let hashed := bcrypt_hashpw plain salt
  (dictSetEntry tokens user
    { user := user, hash := hashed, email := email, display_name := display_name,
      created_at := now, last_used := none, disabled := disabled }, plain)

/-- `TokenStore.set_disabled` (auth_tokens.py lines 134-140). -/
def set_disabled (tokens : TokenDict) (user : Str) (disabled : Bool) :
    TokenDict × Bool :=
  match dictGetEntry tokens user with
  | none => (tokens, false)
  | some e => (dictSetEntry tokens user { e with disabled := disabled }, true)

/-- `TokenStore.validate` (auth_tokens.py lines 160-170): linear scan over
all entries in insertion order; disabled entries are skipped; on the first
hash match the entry's `last_used` is set to `now` and its user id is
returned. -/
def validate (tokens : TokenDict) (token : Str) (now : ℚ) :
    Option Str × TokenDict :=
  match tokens with
  | [] => (none, [])
  | (user, entry) :: rest =>
    if entry.disabled then
      let r := validate rest token now
      (r.1, (user, entry) :: r.2)
    else if bcrypt_checkpw token entry.hash then
      (some user, (user, { entry with last_used := some now }) :: rest)
    else
      let r := validate rest token now
      (r.1, (user, entry) :: r.2)

/-! ### Claim C8 -/

/-- C8 counterexample: `validate` is a linear scan, so registering the same
plaintext for a second user does not make `validate` return the second
user: immediately after `add("bob", "t")` in a store already holding
`("alice", "t")`, `validate("t")` returns `alice`, not `bob`. -/
theorem c8_counterexample :
    (validate (add_token (add_token [] (str "alice") (some (str "t"))
        none none false (str "g1") 0 0).1
      (str "bob") (some (str "t")) none none false (str "g2") 1 1).1
      (str "t") 2).1 = some (str "alice") ∧
    (some (str "alice") : Option Str) ≠ some (str "bob") := by
  decide

theorem validate_none_of_no_match (token : Str) (now : ℚ) :
    ∀ tokens : TokenDict,
      (∀ e ∈ tokens, e.2.disabled = true ∨ e.2.hash.plain ≠ token) →
      (validate tokens token now).1 = none := by
  intro tokens
  induction tokens with
  | nil => intro _; rfl
  | cons p rest ih =>
    intro h
    obtain ⟨user, entry⟩ := p
    rcases h (user, entry) (by simp) with hd | hne
    · simp only [validate]
      rw [if_pos hd]
      exact ih (fun e he => h e (by simp [he]))
    · by_cases hd : entry.disabled
      · simp only [validate]
        rw [if_pos hd]
        exact ih (fun e he => h e (by simp [he]))
      · have hcheck : bcrypt_checkpw token entry.hash = false := by
          simp only [bcrypt_checkpw, decide_eq_false_iff_not]
          exact fun hh => hne hh.symm
        simp only [validate]
        rw [if_neg (by simp [hd]), if_neg (by simp [hcheck])]
        exact ih (fun e he => h e (by simp [he]))

theorem mem_dictSetEntry_nodup {k : Str} {v : TokenEntry} :
    ∀ {d : TokenDict}, (d.map Prod.fst).Nodup →
      ∀ {e : Str × TokenEntry}, e ∈ dictSetEntry d k v →
      e = (k, v) ∨ (e ∈ d ∧ e.1 ≠ k) := by
  intro d
  induction d with
  | nil =>
    intro _ e h
    simp [dictSetEntry] at h
    exact Or.inl h
  | cons p rest ih =>
    intro hnodup e h
    obtain ⟨k2, v2⟩ := p
    have hk2 : k2 ∉ rest.map Prod.fst := by
      simp only [List.map_cons, List.nodup_cons] at hnodup
      exact hnodup.1
    have hrest : (rest.map Prod.fst).Nodup := by
      simp only [List.map_cons, List.nodup_cons] at hnodup
      exact hnodup.2
    by_cases hk : k2 = k
    · rw [dictSetEntry, if_pos hk] at h
      rcases List.mem_cons.mp h with h1 | h1
      · exact Or.inl (by rw [h1, hk])
      · refine Or.inr ⟨by simp [h1], ?_⟩
        intro hek
        apply hk2
        have hmem : e.1 ∈ rest.map Prod.fst := List.mem_map_of_mem Prod.fst h1
        rw [hek] at hmem
        rw [hk]
        exact hmem
    · rw [dictSetEntry, if_neg hk] at h
      rcases List.mem_cons.mp h with h1 | h1
      · exact Or.inr ⟨by simp [h1], by rw [h1]; exact hk⟩
      · rcases ih hrest h1 with h2 | h2
        · exact Or.inl h2
        · exact Or.inr ⟨by simp [h2.1], h2.2⟩

theorem dictGetEntry_none_no_key {k : Str} :
    ∀ {d : TokenDict}, dictGetEntry d k = none → ∀ e ∈ d, e.1 ≠ k := by
  intro d
  induction d with
  | nil => intro _ e he; simp at he
  | cons p rest ih =>
    intro h e he
    obtain ⟨k2, v2⟩ := p
    by_cases hk : k2 = k
    · rw [dictGetEntry, if_pos hk] at h
      exact absurd h (by simp)
    · rw [dictGetEntry, if_neg hk] at h
      rcases List.mem_cons.mp he with h1 | h1
      · rw [h1]; exact hk
      · exact ih h e h1

theorem validate_after_add (tokens : TokenDict) (user t gen : Str) (salt : Nat)
    (now now2 : ℚ) (email display_name : Option Str)
    (ht : t ≠ [])
    (hothers : ∀ e ∈ tokens, e.1 ≠ user → e.2.disabled = true ∨ e.2.hash.plain ≠ t) :
    (validate (add_token tokens user (some t) email display_name false gen salt now).1
      t now2).1 = some user := by
  have hplain : (if falsy (some t) then gen else (some t).getD []) = t := by
    simp [falsy, List.isEmpty_iff, ht]
  unfold add_token
  rw [hplain]
  induction tokens with
  | nil =>
    simp [dictSetEntry, validate, bcrypt_checkpw, bcrypt_hashpw]
  | cons p rest ih =>
    obtain ⟨k2, v2⟩ := p
    by_cases hk : k2 = user
    · simp only [dictSetEntry, if_pos hk]
      simp [validate, bcrypt_checkpw, bcrypt_hashpw, hk]
    · simp only [dictSetEntry, if_neg hk]
      rcases hothers (k2, v2) (by simp) hk with hd | hne
      · simp only [validate]
        rw [if_pos hd]
        exact ih (fun e he hne2 => hothers e (by simp [he]) hne2)
      · by_cases hd : v2.disabled
        · simp only [validate]
          rw [if_pos hd]
          exact ih (fun e he hne2 => hothers e (by simp [he]) hne2)
        · have hcheck : bcrypt_checkpw t v2.hash = false := by
            simp only [bcrypt_checkpw, decide_eq_false_iff_not]
            exact fun hh => hne hh.symm
          simp only [validate]
          rw [if_neg (by simp [hd]), if_neg (by simp [hcheck])]
          exact ih (fun e he hne2 => hothers e (by simp [he]) hne2)

/-- C8 (amended): immediately after `add(user, plaintext)`, `validate`
returns that user's id provided no other enabled entry stores the same
plaintext; after `setDisabled(user, true)` — in a store with unique user
keys where only that user's entry matches the plaintext — `validate`
returns null because the disabled entry is skipped during the scan; and for
any token whose plaintext matches no stored hash at all (in particular a
token never registered), `validate` returns null. -/
theorem c8_validate_lifecycle :
    (∀ (tokens : TokenDict) (user t gen : Str) (salt : Nat) (now now2 : ℚ)
        (email display_name : Option Str),
      t ≠ [] →
      (∀ e ∈ tokens, e.1 ≠ user → e.2.disabled = true ∨ e.2.hash.plain ≠ t) →
      (validate (add_token tokens user (some t) email display_name false gen salt now).1
        t now2).1 = some user) ∧
    (∀ (tokens : TokenDict) (user t : Str) (now2 : ℚ),
      (∀ e ∈ tokens, e.1 = user ∨ e.2.disabled = true ∨ e.2.hash.plain ≠ t) →
      (tokens.map Prod.fst).Nodup →
      (validate (set_disabled tokens user true).1 t now2).1 = none) ∧
    (∀ (tokens : TokenDict) (t : Str) (now2 : ℚ),
      (∀ e ∈ tokens, e.2.hash.plain ≠ t) →
      (validate tokens t now2).1 = none) := by
  refine ⟨?_, ?_, ?_⟩
  · intro tokens user t gen salt now now2 email display_name ht hothers
    exact validate_after_add tokens user t gen salt now now2 email display_name ht hothers
  · intro tokens user t now2 hmatch hnodup
    unfold set_disabled
    cases hget : dictGetEntry tokens user with
    | none =>
      apply validate_none_of_no_match
      intro e he
      rcases hmatch e he with h1 | h2
      · exact absurd h1 (dictGetEntry_none_no_key hget e he)
      · exact h2
    | some e0 =>
      apply validate_none_of_no_match
      intro e he
      rcases mem_dictSetEntry_nodup hnodup he with h1 | h1
      · rw [h1]
        exact Or.inl rfl
      · rcases hmatch e h1.1 with h2 | h2
        · exact absurd h2 h1.2
        · exact h2
  · intro tokens t now2 h
    exact validate_none_of_no_match t now2 tokens (fun e he => Or.inr (h e he))

/-- C8 witness: the three amended clauses at a concrete two-user store. -/
theorem c8_witness :
    (validate (add_token [] (str "alice") (some (str "tok")) none none false
      (str "g") 0 0).1 (str "tok") 1).1 = some (str "alice") ∧
    (validate (set_disabled [(str "alice",
        { user := str "alice", hash := ⟨0, str "tok"⟩ })] (str "alice") true).1
      (str "tok") 1).1 = none ∧
    (validate [(str "alice", { user := str "alice", hash := ⟨0, str "tok"⟩ })]
      (str "never") 1).1 = none :=
  ⟨c8_validate_lifecycle.1 [] (str "alice") (str "tok") (str "g") 0 0 1 none none
    (by decide) (by intro e he; simp at he),
   c8_validate_lifecycle.2.1 [(str "alice",
      { user := str "alice", hash := ⟨0, str "tok"⟩ })] (str "alice") (str "tok") 1
    (by intro e he; simp at he; rw [he]; exact Or.inl rfl) (by decide),
   c8_validate_lifecycle.2.2 [(str "alice",
      { user := str "alice", hash := ⟨0, str "tok"⟩ })] (str "never") 1
    (by intro e he; simp at he; rw [he]; decide)⟩

/-- The header values the chat handler reads, each as returned by the
corresponding `headers.get(...)` call. -/
structure Headers where
  x_proxy_token_lower : Option Str := none
  x_proxy_token_upper : Option Str := none
  authorization_lower : Option Str := none
  authorization_upper : Option Str := none

/-- ASCII lowercase of one character (Python `str.lower()` on the ASCII
header names and schemes the code compares). -/
def lowerChar (c : Char) : Char :=
  if 65 ≤ c.toNat ∧ c.toNat ≤ 90 then Char.ofNat (c.toNat + 32) else c

/-- ASCII lowercase of a string. -/
def lowerStr (s : Str) : Str := s.map lowerChar

/-- `extract_and_validate_proxy_token` (auth_tokens.py lines 203-230) with
the module globals (`proxy_auth_required`, `token_store`) and the `_now()`
timestamp as parameters.  Returns `(clean_model, user_id)` plus the
(possibly `last_used`-updated) store, or the `ValueError` message. -/
def extract_and_validate_proxy_token (required : Bool) (store : Option TokenDict)
    (logical_model : Option Str) (headers : Headers) (now : ℚ) :
    Except Str ((Option Str × Option Str) × Option TokenDict) :=
  if !required then .ok ((logical_model, none), store)
  else
    let hdr := pyOr headers.x_proxy_token_lower headers.x_proxy_token_upper
    let token0 : Option Str :=
      if falsy hdr then none else some (pyStrip (hdr.getD []))
    let split_model :=
      match logical_model with
      | some s => falsy token0 && decide (':' ∈ s)
      | none => false
    let token1 : Option Str :=
      if split_model then some (splitOnce ':' (logical_model.getD [])).1 else token0
    let model_value : Option Str :=
      if split_model then some (splitOnce ':' (logical_model.getD [])).2 else logical_model
    if falsy token1 then .error (str "Proxy auth required: no token provided.")
    else
      match store with
      | none => .error (str "Proxy auth required but token store not configured.")
      | some d =>
        let r := validate d (token1.getD []) now
        match r.1 with
        | none => .error (str "Proxy auth token is invalid.")
        | some u => .ok ((model_value, some u), some r.2)

/-! ### Claim C9 -/

/-- C9: when gateway auth is required and neither `X-Proxy-Token` header
variant supplies a token, a model string containing a colon is split at its
first colon: the left part is validated as the gateway auth token (an empty
left part fails as a missing token, exactly as validating it would, since
the store never hashes an empty plaintext) and only the right part is used
as the logical model, so a client can authenticate through the model field
alone. -/
theorem c9_token_in_model (store : TokenDict) (l r : Str) (headers : Headers)
    (now : ℚ)
    (hhdr : falsy (pyOr headers.x_proxy_token_lower headers.x_proxy_token_upper) = true)
    (hl : ':' ∉ l) :
    (l ≠ [] →
      extract_and_validate_proxy_token true (some store)
          (some (l ++ ':' :: r)) headers now =
        match (validate store l now).1 with
        | some u => .ok ((some r, some u), some (validate store l now).2)
        | none => .error (str "Proxy auth token is invalid.")) ∧
    (l = [] →
      extract_and_validate_proxy_token true (some store)
          (some (l ++ ':' :: r)) headers now =
        .error (str "Proxy auth required: no token provided.")) := by
  have hsplit : splitOnce ':' (l ++ ':' :: r) = (l, r) := splitOnce_append hl
  have hmem : ':' ∈ l ++ ':' :: r := by simp
  have hdec : decide (':' ∈ l ++ ':' :: r) = true := decide_eq_true hmem
  constructor
  · intro hlne
    have hfl : falsy (some l) = false := by simp [falsy, List.isEmpty_iff, hlne]
    simp only [extract_and_validate_proxy_token, Bool.not_true, Bool.false_eq_true,
      if_false, hhdr, if_true, hdec, Bool.and_true, Option.getD_some, hsplit, hfl,
      show falsy none = true from rfl, eq_self_iff_true]
    cases hv : (validate store l now).1 with
    | none => rfl
    | some u => rfl
  · intro hlnil
    subst hlnil
    simp only [extract_and_validate_proxy_token, Bool.not_true, Bool.false_eq_true,
      if_false, hhdr, if_true, hdec, Bool.and_true, Option.getD_some, hsplit,
      show falsy none = true from rfl, eq_self_iff_true]
    rw [if_pos (by simp [falsy])]

/-- The store entry used by the C9 witness. -/
def c9_entry : TokenEntry := { user := str "alice", hash := ⟨0, str "tok"⟩ }

/-- The same entry after its `last_used` timestamp is touched. -/
def c9_entry_used : TokenEntry :=
  { user := str "alice", hash := ⟨0, str "tok"⟩, last_used := some 7 }

/-- C9 witness: with no header token, model `tok:claude-3` and a store
holding `alice` with plaintext `tok`, the request authenticates as `alice`
and the logical model becomes `claude-3`. -/
theorem c9_witness :
    extract_and_validate_proxy_token true (some [(str "alice", c9_entry)])
        (some (str "tok" ++ ':' :: str "claude-3")) {} 7 =
      .ok ((some (str "claude-3"), some (str "alice")),
        some [(str "alice", c9_entry_used)]) := by
  have h := (c9_token_in_model [(str "alice", c9_entry)]
    (str "tok") (str "claude-3") {} 7 rfl (by decide)).1 (by decide)
  rw [h]
  rfl

/-! ## src/proxy/routes_chat.py (pre-upstream phase) -/

/-- `ZERO_USAGE` (metrics.py line 229). -/
def ZERO_USAGE : UsageDict :=
  { prompt_tokens := some 0, completion_tokens := some 0, total_tokens := some 0 }

/-- The chat request body fields the pre-upstream phase reads
(routes_chat.py lines 24-69); the message objects themselves are only
tested for emptiness before the upstream call, so they are opaque here. -/
structure ChatBody where
  model : Option Str := none
  messages : List Unit := []
  user : Option Str := none

/-- The outcome of the deterministic pre-upstream phase of
`chat_completions` (routes_chat.py lines 21-95). -/
inductive ChatPreOutcome where
  | noMessages
  | authError (msg : Str)
  | noModel
  | proceed (logical_model : Str) (user_id : Str) (logical_api_key : Option Str)
deriving DecidableEq, Repr

/-- The logical API key resolution of routes_chat.py lines 62-68: a
`Bearer` Authorization header wins, else the `DEV_DEFAULT_LOGICAL_API_KEY`
environment value when set and non-empty. -/
def resolve_logical_api_key (headers : Headers) (dev_default_key : Option Str) :
    Option Str :=
  let auth := pyOr headers.authorization_lower headers.authorization_upper
  if !falsy auth && (str "bearer ").isPrefixOf (lowerStr (auth.getD [])) then
    some (pyStrip (splitOnce ' ' (auth.getD [])).2)
  else if !falsy dev_default_key then dev_default_key
  else none

/-- `chat_completions` up to the missing-model check (routes_chat.py lines
21-95), as a pure transition over the metrics tracker and token store: body
parsing and the batch check are upstream of these fields, the auth-failure
branch (lines 41-42) returns the error response without recording metrics,
and the missing-model branch (lines 71-80) records an error outcome before
returning. -/
def chat_pre (required : Bool) (store : Option TokenDict) (metrics0 : MetricsTracker)
    (body : ChatBody) (headers : Headers) (dev_default_key : Option Str) (now : ℚ) :
    ChatPreOutcome × MetricsTracker × Option TokenDict :=
  if body.messages.isEmpty then (.noMessages, metrics0, store)
  else
    match extract_and_validate_proxy_token required store body.model headers now with
    | .error msg => (.authError msg, metrics0, store)
    | .ok ((logical_model, proxy_user), store2) =>
      let logical_api_key := resolve_logical_api_key headers dev_default_key
      let user_id :=
        if falsy proxy_user then derive_user_id logical_api_key body.user
        else proxy_user.getD []
      if falsy logical_model then
        (.noModel,
          metrics0.record
            { route := str "/v1/chat/completions", model := none, resource := none,
              user_id := user_id, usage := ZERO_USAGE, error := true,
              duration_ms := none, now := now },
          store2)
      else (.proceed (logical_model.getD []) user_id logical_api_key, metrics0, store2)

/-! ### Claim C2 -/

/-- C2 counterexample: with proxy auth enabled and a store holding `alice`,
a chat request with no `X-Proxy-Token` header and model `claude-3` fails
gateway auth — and the metrics tracker is left untouched, so the route's
`error_count` is `0`, not `1` as the claim requires. -/
theorem c2_counterexample :
    (chat_pre true (some [(str "alice", c9_entry)]) {}
        { model := some (str "claude-3"), messages := [()] }
        { authorization_lower := some (str "Bearer resource:key") } none 0).1 =
      .authError (str "Proxy auth required: no token provided.") ∧
    (routeOf (chat_pre true (some [(str "alice", c9_entry)]) {}
        { model := some (str "claude-3"), messages := [()] }
        { authorization_lower := some (str "Bearer resource:key") } none 0).2.1
      (str "/v1/chat/completions")).error_count = 0 := by
  constructor
  · rfl
  · rfl

/-- C2 (amended): failed requests that reach the handler's own failure
branches do record an error outcome — after one missing-model request the
route's `error_count` rises by one — but a request rejected for a wrong or
missing gateway auth token returns its protocol-shaped error without
recording any metrics, so after one such request the route's `error_count`
is still `0`. -/
theorem c2_error_metrics
    (required : Bool) (store : Option TokenDict) (metrics0 : MetricsTracker)
    (body : ChatBody) (headers : Headers) (dev : Option Str) (now : ℚ) :
    (∀ msg, (chat_pre required store metrics0 body headers dev now).1 = .authError msg →
      (chat_pre required store metrics0 body headers dev now).2.1 = metrics0) ∧
    ((chat_pre required store metrics0 body headers dev now).1 = .noModel →
      (routeOf (chat_pre required store metrics0 body headers dev now).2.1
          (str "/v1/chat/completions")).error_count =
        (routeOf metrics0 (str "/v1/chat/completions")).error_count + 1) := by
  constructor
  · intro msg houtcome
    unfold chat_pre at houtcome ⊢
    by_cases hmsg : body.messages.isEmpty
    · rw [if_pos hmsg]
    · rw [if_neg hmsg] at houtcome ⊢
      cases hex : extract_and_validate_proxy_token required store body.model headers now with
      | error m => rfl
      | ok v =>
        obtain ⟨⟨logical_model, proxy_user⟩, store2⟩ := v
        rw [hex] at houtcome
        simp only at houtcome
        by_cases hlm : falsy logical_model
        · rw [if_pos hlm] at houtcome
          exact absurd houtcome (by simp)
        · rw [if_neg hlm] at houtcome
          exact absurd houtcome (by simp)
  · intro houtcome
    unfold chat_pre at houtcome ⊢
    by_cases hmsg : body.messages.isEmpty
    · rw [if_pos hmsg] at houtcome
      exact absurd houtcome (by simp)
    · rw [if_neg hmsg] at houtcome ⊢
      cases hex : extract_and_validate_proxy_token required store body.model headers now with
      | error m =>
        rw [hex] at houtcome
        exact absurd houtcome (by simp)
      | ok v =>
        obtain ⟨⟨logical_model, proxy_user⟩, store2⟩ := v
        rw [hex] at houtcome
        simp only at houtcome ⊢
        by_cases hlm : falsy logical_model
        · rw [if_pos hlm]
          have h := (record_proj_self metrics0
            { route := str "/v1/chat/completions", model := none, resource := none,
              user_id := if falsy proxy_user then
                  derive_user_id (resolve_logical_api_key headers dev) body.user
                else proxy_user.getD [],
              usage := ZERO_USAGE, error := true, duration_ms := none, now := now }).2.1
          simpa using h
        · rw [if_neg hlm] at houtcome
          exact absurd houtcome (by simp)

/-- C2 witness: both amended clauses at concrete requests — an auth failure
leaves the tracker untouched, a missing-model request (with auth disabled)
records one error. -/
theorem c2_witness :
    (chat_pre true (some [(str "alice", c9_entry)]) {}
        { model := some (str "claude-3"), messages := [()] } {} none 0).2.1 =
      ({} : MetricsTracker) ∧
    (routeOf (chat_pre false none {} { model := none, messages := [()] } {} none 0).2.1
      (str "/v1/chat/completions")).error_count = 1 := by
  constructor
  · exact (c2_error_metrics true (some [(str "alice", c9_entry)]) {}
      { model := some (str "claude-3"), messages := [()] } {} none 0).1
      (str "Proxy auth required: no token provided.") rfl
  · have h := (c2_error_metrics false none {}
      { model := none, messages := [()] } {} none 0).2 rfl
    rw [h]
    rfl

/-! ## src/proxy/tools.py

The tool-call bridge parses embedded markers out of model text.  Its
helpers `json.loads` / `json.dumps` / `ast.literal_eval` are embedded as a
JSON value type with a parser and serializer; numeric literals are modelled
as integers and exotic escapes laxly (no claim exercises floats or
surrogate pairs; an unparsed body is skipped, matching the silent-skip
design). -/

/-- Opening brace character (written by code point to keep string literals
brace-free). -/
def lbrace : Char := Char.ofNat 123

/-- Closing brace character. -/
def rbrace : Char := Char.ofNat 125

/-- Parsed JSON / Python-literal values. -/
inductive JValue where
  | null
  | bool (b : Bool)
  | num (n : Int)
  | str (s : Str)
  | arr (xs : List JValue)
  | obj (kvs : List (Str × JValue))

/-- Python truthiness of a parsed value. -/
def jtruthy : JValue → Bool
  | .null => false
  | .bool b => b
  | .num n => decide (n ≠ 0)
  | .str s => !s.isEmpty
  | .arr xs => !xs.isEmpty
  | .obj kvs => !kvs.isEmpty

/-- `d.get(k)` on a parsed object. -/
def jget (kvs : List (Str × JValue)) (k : Str) : Option JValue :=
  match kvs with
  | [] => none
  | (k2, v) :: rest => if k2 = k then some v else jget rest k

/-- Python dict insertion while parsing: a later duplicate key overrides. -/
def jdictSet (kvs : List (Str × JValue)) (k : Str) (v : JValue) :
    List (Str × JValue) :=
  match kvs with
  | [] => [(k, v)]
  | (k2, v2) :: rest =>
    if k2 = k then (k2, v) :: rest else (k2, v2) :: jdictSet rest k v

/-- ASCII digit test. -/
def isDigitCh (c : Char) : Bool := 48 ≤ c.toNat && c.toNat ≤ 57

/-- The character of a decimal digit. -/
def digitChar (d : Nat) : Char := Char.ofNat (48 + d)

/-- Base-10 digits of a positive number, least significant first, with fuel
(one fuel unit per digit; the number itself is always enough fuel). -/
def natDigitsF : Nat → Nat → List Nat
  | 0, _ => []
  | fuel + 1, n => if n = 0 then [] else n % 10 :: natDigitsF fuel (n / 10)

/-- Decimal representation of a natural number. -/
def natToStr (n : Nat) : Str :=
  if n = 0 then [digitChar 0] else ((natDigitsF n n).map digitChar).reverse

/-- Decimal representation of an integer. -/
def intToStr (n : Int) : Str :=
  if n < 0 then '-' :: natToStr n.natAbs else natToStr n.toNat

/-- Numeric value of a decimal digit character. -/
def charToDigit (c : Char) : Nat := c.toNat - 48

/-- Numeric value of a most-significant-first digit string. -/
def digitsToNat (s : Str) : Nat := s.foldl (fun acc c => acc * 10 + charToDigit c) 0

/-- Numeric value of a hex digit character. -/
def hexVal (c : Char) : Nat :=
  if 48 ≤ c.toNat ∧ c.toNat ≤ 57 then c.toNat - 48
  else if 97 ≤ c.toNat ∧ c.toNat ≤ 102 then c.toNat - 87
  else if 65 ≤ c.toNat ∧ c.toNat ≤ 70 then c.toNat - 55
  else 0

/-- Body of a JSON string after its opening quote: returns the decoded
content and the text after the closing quote. -/
def parseJStringBody : Str → Option (Str × Str)
  | [] => none
  | '"' :: rest => some ([], rest)
  | '\\' :: 'u' :: h1 :: h2 :: h3 :: h4 :: rest =>
    (parseJStringBody rest).map (fun p =>
      (Char.ofNat (((hexVal h1 * 16 + hexVal h2) * 16 + hexVal h3) * 16 + hexVal h4) :: p.1,
        p.2))
  | '\\' :: c :: rest =>
    let ec : Char :=
      if c = 'n' then Char.ofNat 10
      else if c = 't' then Char.ofNat 9
      else if c = 'r' then Char.ofNat 13
      else if c = 'b' then Char.ofNat 8
      else if c = 'f' then Char.ofNat 12
      else c
    (parseJStringBody rest).map (fun p => (ec :: p.1, p.2))
  | c :: rest => (parseJStringBody rest).map (fun p => (c :: p.1, p.2))

/-- A JSON integer literal (optional sign, decimal digits). -/
def parseJNumber (s : Str) : Option (Int × Str) :=
  match s with
  | '-' :: rest =>
    let ds := rest.takeWhile isDigitCh
    if ds.isEmpty then none
    else some (-(digitsToNat ds : Int), rest.dropWhile isDigitCh)
  | _ =>
    let ds := s.takeWhile isDigitCh
    if ds.isEmpty then none
    else some ((digitsToNat ds : Int), s.dropWhile isDigitCh)

/-- Case-sensitive literal match: consume `pat` from the front of the
input. -/
def matchLit : Str → Str → Option Str
  | [], s => some s
  | _ :: _, [] => none
  | p :: ps, c :: cs => if c = p then matchLit ps cs else none

mutual

/-- Recursive-descent JSON value parser (fuel-indexed; the callers pass
`length + 1`, ample because every recursive step consumes input). -/
def parseJValue : Nat → Str → Option (JValue × Str)
  | 0, _ => none
  | fuel + 1, s =>
    let s1 := s.dropWhile pyIsSpace
    match s1 with
    | [] => none
    | c :: rest =>
      if c = '"' then
        (parseJStringBody rest).map (fun p => (JValue.str p.1, p.2))
      else if c = '[' then
        let r1 := rest.dropWhile pyIsSpace
        match r1 with
        | ']' :: r2 => some (JValue.arr [], r2)
        | _ => (parseJArrayItems fuel r1).map (fun p => (JValue.arr p.1, p.2))
      else if c = lbrace then
        let r1 := rest.dropWhile pyIsSpace
        match r1 with
        | c2 :: r2 =>
          if c2 = rbrace then some (JValue.obj [], r2)
          else
            (parseJObjectItems fuel r1).map (fun p =>
              (JValue.obj (p.1.foldl (fun acc kv => jdictSet acc kv.1 kv.2) []), p.2))
        | [] => none
      else
        match matchLit (str "true") s1 with
        | some r => some (JValue.bool true, r)
        | none =>
          match matchLit (str "false") s1 with
          | some r => some (JValue.bool false, r)
          | none =>
            match matchLit (str "null") s1 with
            | some r => some (JValue.null, r)
            | none => (parseJNumber s1).map (fun p => (JValue.num p.1, p.2))

/-- One-or-more comma-separated array elements up to `]`. -/
def parseJArrayItems : Nat → Str → Option (List JValue × Str)
  | 0, _ => none
  | fuel + 1, s =>
    (parseJValue fuel s).bind (fun p =>
      let r1 := p.2.dropWhile pyIsSpace
      match r1 with
      | c :: r2 =>
        if c = ',' then
          (parseJArrayItems fuel r2).map (fun q => (p.1 :: q.1, q.2))
        else if c = ']' then some ([p.1], r2)
        else none
      | [] => none)

/-- One-or-more `"key": value` object members up to the closing brace,
in textual order (duplicates resolved by the caller). -/
def parseJObjectItems : Nat → Str → Option (List (Str × JValue) × Str)
  | 0, _ => none
  | fuel + 1, s =>
    let s1 := s.dropWhile pyIsSpace
    match s1 with
    | '"' :: rest =>
      (parseJStringBody rest).bind (fun kp =>
        let r1 := kp.2.dropWhile pyIsSpace
        match r1 with
        | ':' :: r2 =>
          (parseJValue fuel r2).bind (fun vp =>
            let r3 := vp.2.dropWhile pyIsSpace
            match r3 with
            | c :: r4 =>
              if c = ',' then
                (parseJObjectItems fuel r4).map (fun q => ((kp.1, vp.1) :: q.1, q.2))
              else if c = rbrace then some ([(kp.1, vp.1)], r4)
              else none
            | [] => none)
        | _ => none)
    | _ => none

end

/-- `json.loads`: parse a complete document, rejecting trailing content. -/
def json_loads (s : Str) : Option JValue :=
  match parseJValue (s.length + 1) s with
  | some (v, rest) => if (rest.dropWhile pyIsSpace).isEmpty then some v else none
  | none => none

/-- JSON string escaping as `json.dumps` performs it (`ensure_ascii` for
the control range; code points above 0xffff are beyond the payloads
modelled here). -/
def jdumpChar (c : Char) : Str :=
  if c = '"' then ['\\', '"']
  else if c = '\\' then ['\\', '\\']
  else if c.toNat = 10 then ['\\', 'n']
  else if c.toNat = 9 then ['\\', 't']
  else if c.toNat = 13 then ['\\', 'r']
  else if c.toNat = 8 then ['\\', 'b']
  else if c.toNat = 12 then ['\\', 'f']
  else if c.toNat < 32 ∨ 127 ≤ c.toNat then
    '\\' :: 'u' :: [hexDigitChar (c.toNat / 4096 % 16), hexDigitChar (c.toNat / 256 % 16),
      hexDigitChar (c.toNat / 16 % 16), hexDigitChar (c.toNat % 16)]
  else [c]

/-- A JSON string literal as `json.dumps` writes it. -/
def jdumpStr (s : Str) : Str := '"' :: s.flatMap jdumpChar ++ ['"']

mutual

/-- `json.dumps` with its default `", "` and `": "` separators. -/
def json_dumps : JValue → Str
  | .null => str "null"
  | .bool true => str "true"
  | .bool false => str "false"
  | .num n => intToStr n
  | .str s => jdumpStr s
  | .arr xs => '[' :: List.intercalate (str ", ") (json_dumps_list xs) ++ [']']
  | .obj kvs => lbrace :: List.intercalate (str ", ") (json_dumps_obj kvs) ++ [rbrace]

/-- Serialized array elements, in order. -/
def json_dumps_list : List JValue → List Str
  | [] => []
  | v :: rest => json_dumps v :: json_dumps_list rest

/-- Serialized `"key": value` members, in order. -/
def json_dumps_obj : List (Str × JValue) → List Str
  | [] => []
  | (k, v) :: rest => (jdumpStr k ++ str ": " ++ json_dumps v) :: json_dumps_obj rest

end

/-- Case-insensitive literal match (`re.IGNORECASE` over the ASCII tag
patterns): consume `pat` from the front of the input. -/
def matchCI : Str → Str → Option Str
  | [], s => some s
  | _ :: _, [] => none
  | p :: ps, c :: cs => if lowerChar c = lowerChar p then matchCI ps cs else none

theorem matchCI_length {pat : Str} :
    ∀ {s r : Str}, matchCI pat s = some r → r.length + pat.length = s.length := by
  induction pat with
  | nil =>
    intro s r h
    have hh : s = r := by injection h
    subst hh
    simp
  | cons p ps ih =>
    intro s r h
    cases s with
    | nil => simp [matchCI] at h
    | cons c cs =>
      rw [matchCI] at h
      by_cases hc : lowerChar c = lowerChar p
      · rw [if_pos hc] at h
        have := ih h
        simp only [List.length_cons]
        omega
      · rw [if_neg hc] at h
        exact absurd h (by simp)

theorem dropWhile_length_le (p : Char → Bool) (l : Str) :
    (l.dropWhile p).length ≤ l.length := by
  induction l with
  | nil => simp
  | cons a as ih =>
    rw [List.dropWhile]
    by_cases h : p a <;> simp [h] <;> omega

/-- The close of the read-file pattern: `</path>\s*</read_file>`. -/
def matchCloseRF (s : Str) : Option Str :=
  (matchCI (str "</path>") s).bind
    (fun a => matchCI (str "</read_file>") (a.dropWhile pyIsSpace))

theorem matchCloseRF_length {s r : Str} (h : matchCloseRF s = some r) :
    r.length ≤ s.length := by
  unfold matchCloseRF at h
  cases ha : matchCI (str "</path>") s with
  | none => rw [ha] at h; simp at h
  | some a =>
    rw [ha] at h
    simp only [Option.some_bind] at h
    have h1 := matchCI_length ha
    have h2 := matchCI_length h
    have h3 := dropWhile_length_le pyIsSpace a
    omega

/-- The non-greedy capture `(.*?)` of the read-file pattern: the shortest
prefix whose remainder starts with the close pattern. -/
def rfCaptureF : Nat → Str → Option (Str × Str)
  | 0, s =>
    (match matchCloseRF s with
     | some rest => some (([] : Str), rest)
     | none => none)
  | fuel + 1, s =>
    match matchCloseRF s with
    | some rest => some (([] : Str), rest)
    | none =>
      match s with
      | [] => none
      | c :: cs => (rfCaptureF fuel cs).map (fun p => (c :: p.1, p.2))

/-- The capture at full fuel (the recursion consumes at most one character
per fuel unit, so the input length is always enough fuel). -/
def rfCapture (s : Str) : Option (Str × Str) := rfCaptureF s.length s

theorem rfCaptureF_length :
    ∀ (fuel : Nat) (s : Str) {p : Str × Str},
      rfCaptureF fuel s = some p → p.2.length ≤ s.length := by
  intro fuel
  induction fuel with
  | zero =>
    intro s p h
    simp only [rfCaptureF] at h
    cases hm : matchCloseRF s with
    | some r =>
      rw [hm] at h
      injection h with h
      subst h
      simpa using matchCloseRF_length hm
    | none => rw [hm] at h; simp at h
  | succ fuel ih =>
    intro s p h
    simp only [rfCaptureF] at h
    cases hm : matchCloseRF s with
    | some r =>
      rw [hm] at h
      injection h with h
      subst h
      simpa using matchCloseRF_length hm
    | none =>
      rw [hm] at h
      cases s with
      | nil => simp at h
      | cons c cs =>
        simp only [Option.map_eq_some'] at h
        obtain ⟨q, hq, rfl⟩ := h
        have := ih cs hq
        simp only [List.length_cons]
        omega

theorem rfCapture_length :
    ∀ (s : Str) {p : Str × Str}, rfCapture s = some p → p.2.length ≤ s.length :=
  fun s _ h => rfCaptureF_length s.length s h

/-- One match of `<read_file>\s*<path>(.*?)</path>\s*</read_file>` at the
start of the input: the captured path and the text after the match. -/
def matchReadFileAt (s : Str) : Option (Str × Str) :=
  (matchCI (str "<read_file>") s).bind (fun a =>
    (matchCI (str "<path>") (a.dropWhile pyIsSpace)).bind rfCapture)

theorem matchReadFileAt_length {s : Str} {p : Str × Str}
    (h : matchReadFileAt s = some p) : p.2.length < s.length := by
  unfold matchReadFileAt at h
  cases ha : matchCI (str "<read_file>") s with
  | none => rw [ha] at h; simp at h
  | some a =>
    rw [ha] at h
    simp only [Option.some_bind] at h
    cases hb : matchCI (str "<path>") (a.dropWhile pyIsSpace) with
    | none => rw [hb] at h; simp at h
    | some b =>
      rw [hb] at h
      simp only [Option.some_bind] at h
      have h1 := matchCI_length ha
      have h2 := matchCI_length hb
      have h3 := dropWhile_length_le pyIsSpace a
      have h4 := rfCapture_length b h
      have h5 : (str "<read_file>").length = 11 := rfl
      omega

/-- `finditer` and `sub` of the read-file pattern combined: the captured
paths in match order, and the text with every matched span removed. -/
def scanReadFileF : Nat → Str → List Str × Str
  | 0, s => ([], s)
  | fuel + 1, s =>
    match s with
    | [] => ([], [])
    | c :: cs =>
      match matchReadFileAt (c :: cs) with
      | some capRest =>
        let r := scanReadFileF fuel capRest.2
        (capRest.1 :: r.1, r.2)
      | none =>
        let r := scanReadFileF fuel cs
        (r.1, c :: r.2)

/-- The scan at full fuel (every step consumes at least one character, so
the input length is always enough fuel). -/
def scanReadFile (s : Str) : List Str × Str := scanReadFileF s.length s

/-- Strip stray `<read_file>` / `</read_file>` tags (the
`re.sub(r"</?read_file>", "", ...)` pass). -/
def stripStrayRFF : Nat → Str → Str
  | 0, s => s
  | fuel + 1, s =>
    match s with
    | [] => []
    | c :: cs =>
      match matchCI (str "<read_file>") (c :: cs) with
      | some rest => stripStrayRFF fuel rest
      | none =>
        match matchCI (str "</read_file>") (c :: cs) with
        | some rest => stripStrayRFF fuel rest
        | none => c :: stripStrayRFF fuel cs

/-- The strip at full fuel. -/
def stripStrayRF (s : Str) : Str := stripStrayRFF s.length s

/-- The non-greedy capture of the `<tool_call>(.*?)</tool_call>` pattern. -/
def tcCaptureF : Nat → Str → Option (Str × Str)
  | 0, s =>
    (match matchCI (str "</tool_call>") s with
     | some rest => some (([] : Str), rest)
     | none => none)
  | fuel + 1, s =>
    match matchCI (str "</tool_call>") s with
    | some rest => some (([] : Str), rest)
    | none =>
      match s with
      | [] => none
      | c :: cs => (tcCaptureF fuel cs).map (fun p => (c :: p.1, p.2))

/-- The capture at full fuel. -/
def tcCapture (s : Str) : Option (Str × Str) := tcCaptureF s.length s

theorem tcCaptureF_length :
    ∀ (fuel : Nat) (s : Str) {p : Str × Str},
      tcCaptureF fuel s = some p → p.2.length ≤ s.length := by
  intro fuel
  induction fuel with
  | zero =>
    intro s p h
    simp only [tcCaptureF] at h
    cases hm : matchCI (str "</tool_call>") s with
    | some r =>
      rw [hm] at h
      injection h with h
      subst h
      have := matchCI_length hm
      show r.length ≤ s.length
      omega
    | none => rw [hm] at h; simp at h
  | succ fuel ih =>
    intro s p h
    simp only [tcCaptureF] at h
    cases hm : matchCI (str "</tool_call>") s with
    | some r =>
      rw [hm] at h
      injection h with h
      subst h
      have := matchCI_length hm
      show r.length ≤ s.length
      omega
    | none =>
      rw [hm] at h
      cases s with
      | nil => simp at h
      | cons c cs =>
        simp only [Option.map_eq_some'] at h
        obtain ⟨q, hq, rfl⟩ := h
        have := ih cs hq
        simp only [List.length_cons]
        omega

theorem tcCapture_length :
    ∀ (s : Str) {p : Str × Str}, tcCapture s = some p → p.2.length ≤ s.length :=
  fun s _ h => tcCaptureF_length s.length s h

/-- One match of the generic block pattern at the start of the input. -/
def matchBlockAt (s : Str) : Option (Str × Str) :=
  (matchCI (str "<tool_call>") s).bind tcCapture

theorem matchBlockAt_length {s : Str} {p : Str × Str}
    (h : matchBlockAt s = some p) : p.2.length < s.length := by
  unfold matchBlockAt at h
  cases ha : matchCI (str "<tool_call>") s with
  | none => rw [ha] at h; simp at h
  | some a =>
    rw [ha] at h
    simp only [Option.some_bind] at h
    have h1 := matchCI_length ha
    have h2 := tcCapture_length a h
    have h3 : (str "<tool_call>").length = 11 := rfl
    omega

/-- `finditer` and `sub` of the block pattern combined. -/
def scanBlocksF : Nat → Str → List Str × Str
  | 0, s => ([], s)
  | fuel + 1, s =>
    match s with
    | [] => ([], [])
    | c :: cs =>
      match matchBlockAt (c :: cs) with
      | some capRest =>
        let r := scanBlocksF fuel capRest.2
        (capRest.1 :: r.1, r.2)
      | none =>
        let r := scanBlocksF fuel cs
        (r.1, c :: r.2)

/-- The scan at full fuel. -/
def scanBlocks (s : Str) : List Str × Str := scanBlocksF s.length s

/-- Python `pat in s` substring containment. -/
def containsSub (pat : Str) (s : Str) : Bool :=
  match s with
  | [] => pat.isEmpty
  | _ :: cs => (matchLit pat s).isSome || containsSub pat cs

/-- Body of a Python string literal after its opening quote `q`. -/
def parsePyStringBody (q : Char) : Str → Option (Str × Str)
  | [] => none
  | '\\' :: c :: rest =>
    let ec : Char :=
      if c = 'n' then Char.ofNat 10
      else if c = 't' then Char.ofNat 9
      else if c = 'r' then Char.ofNat 13
      else c
    (parsePyStringBody q rest).map (fun p => (ec :: p.1, p.2))
  | c :: rest =>
    if c = q then some ([], rest)
    else (parsePyStringBody q rest).map (fun p => (c :: p.1, p.2))

mutual

/-- Recursive-descent parser for the Python literals `ast.literal_eval`
evaluates in the fallback pass: strings (either quote), integers,
`True`/`False`/`None`, lists and string-keyed dicts (the shapes the
Anthropic-style payload uses; anything else fails the parse and the
fallback is abandoned, as the code's `except` does). -/
def parsePyValue : Nat → Str → Option (JValue × Str)
  | 0, _ => none
  | fuel + 1, s =>
    let s1 := s.dropWhile pyIsSpace
    match s1 with
    | [] => none
    | c :: rest =>
      if c = '"' ∨ c = '\'' then
        (parsePyStringBody c rest).map (fun p => (JValue.str p.1, p.2))
      else if c = '[' then
        let r1 := rest.dropWhile pyIsSpace
        match r1 with
        | ']' :: r2 => some (JValue.arr [], r2)
        | _ => (parsePyListItems fuel r1).map (fun p => (JValue.arr p.1, p.2))
      else if c = lbrace then
        let r1 := rest.dropWhile pyIsSpace
        match r1 with
        | c2 :: r2 =>
          if c2 = rbrace then some (JValue.obj [], r2)
          else
            (parsePyDictItems fuel r1).map (fun p =>
              (JValue.obj (p.1.foldl (fun acc kv => jdictSet acc kv.1 kv.2) []), p.2))
        | [] => none
      else
        match matchLit (str "True") s1 with
        | some r => some (JValue.bool true, r)
        | none =>
          match matchLit (str "False") s1 with
          | some r => some (JValue.bool false, r)
          | none =>
            match matchLit (str "None") s1 with
            | some r => some (JValue.null, r)
            | none => (parseJNumber s1).map (fun p => (JValue.num p.1, p.2))

/-- One-or-more comma-separated list elements up to `]`. -/
def parsePyListItems : Nat → Str → Option (List JValue × Str)
  | 0, _ => none
  | fuel + 1, s =>
    (parsePyValue fuel s).bind (fun p =>
      let r1 := p.2.dropWhile pyIsSpace
      match r1 with
      | c :: r2 =>
        if c = ',' then
          (parsePyListItems fuel r2).map (fun q => (p.1 :: q.1, q.2))
        else if c = ']' then some ([p.1], r2)
        else none
      | [] => none)

/-- One-or-more `'key': value` dict members up to the closing brace. -/
def parsePyDictItems : Nat → Str → Option (List (Str × JValue) × Str)
  | 0, _ => none
  | fuel + 1, s =>
    let s1 := s.dropWhile pyIsSpace
    match s1 with
    | c :: rest =>
      if c = '"' ∨ c = '\'' then
        (parsePyStringBody c rest).bind (fun kp =>
          let r1 := kp.2.dropWhile pyIsSpace
          match r1 with
          | ':' :: r2 =>
            (parsePyValue fuel r2).bind (fun vp =>
              let r3 := vp.2.dropWhile pyIsSpace
              match r3 with
              | c2 :: r4 =>
                if c2 = ',' then
                  (parsePyDictItems fuel r4).map (fun q => ((kp.1, vp.1) :: q.1, q.2))
                else if c2 = rbrace then some ([(kp.1, vp.1)], r4)
                else none
              | [] => none)
          | _ => none)
      else none
    | [] => none

end

/-- `ast.literal_eval`: parse a complete Python literal. -/
def pyliteral_eval (s : Str) : Option JValue :=
  match parsePyValue (s.length + 1) s with
  | some (v, rest) => if (rest.dropWhile pyIsSpace).isEmpty then some v else none
  | none => none

/-- One tool definition from the request's `tools`/`functions` list: its
`type` field and the `function.name` the handler reads. -/
structure ToolDef where
  type : Str := str "function"
  function_name : Option Str := none

/-- The available tool-name set built at tools.py lines 27-33. -/
def availableNames (tools : List ToolDef) : List Str :=
  tools.filterMap (fun t =>
    if t.type = str "function" then
      match t.function_name with
      | some n => if n.isEmpty then none else some n
      | none => none
    else none)

/-- One OpenAI-style tool call as built by `add_call` (tools.py lines
43-52); the constant `"type": "function"` member is implicit. -/
structure ToolCall where
  id : Str
  name : Str
  arguments : Str
deriving DecidableEq, Repr

/-- `normalize_args` (tools.py lines 35-41): normalize `read_file`
arguments to a single `uri` field, accepting both `path` and `uri`
spellings. -/
def normalize_args (name : Str) (arguments : List (Str × JValue)) :
    List (Str × JValue) :=
  if name = str "read_file" then
    let path_val : Option JValue :=
      match jget arguments (str "path") with
      | some v => if jtruthy v then some v else jget arguments (str "uri")
      | none => jget arguments (str "uri")
    match path_val with
    | some v => if jtruthy v then [(str "uri", v)] else arguments
    | none => arguments
  else arguments

/-- `add_call` (tools.py lines 43-52): append a call whose id carries the
1-based ordinal `len(tool_calls)+1` and whose arguments are the serialized
normalized dict. -/
def add_call (tool_calls : List ToolCall) (name : Str)
    (arguments : List (Str × JValue)) : List ToolCall :=
  tool_calls ++
    [{ id := str "call_" ++ name ++ '_' :: natToStr (tool_calls.length + 1),
       name := name,
       arguments := json_dumps (JValue.obj (normalize_args name arguments)) }]

/-- One `<tool_call>` block body (tools.py lines 76-85): malformed JSON is
skipped; a parsed non-dict raises `AttributeError` at `.get` (modelled as
`Except.error`); a parsed dict adds a call when the name is available and
the arguments are a dict. -/
def blockStep (available : List Str) (acc : List ToolCall) (cap : Str) :
    Except Unit (List ToolCall) :=
  match json_loads (pyStrip cap) with
  | none => .ok acc
  | some (JValue.obj kvs) =>
    match jget kvs (str "name"), (jget kvs (str "arguments")).getD (JValue.obj []) with
    | some (JValue.str n), JValue.obj akvs =>
      if n ∈ available then .ok (add_call acc n akvs) else .ok acc
    | _, _ => .ok acc
  | some _ => .error ()

/-- The `<tool_call>` JSON pass over all captured block bodies. -/
def foldBlocks (available : List Str) : List ToolCall → List Str →
    Except Unit (List ToolCall)
  | acc, [] => .ok acc
  | acc, cap :: rest =>
    match blockStep available acc cap with
    | .ok acc2 => foldBlocks available acc2 rest
    | .error e => .error e

/-- One Anthropic-style list item (tools.py lines 95-103): a `tool_use`
item with an available name and a dict-shaped `input` becomes a call. -/
def toolUseStep (available : List Str) (acc : List ToolCall) (item : JValue) :
    List ToolCall :=
  match item with
  | JValue.obj kvs =>
    match jget kvs (str "type") with
    | some (JValue.str t) =>
      if t = str "tool_use" then
        match jget kvs (str "name"),
            (match jget kvs (str "input") with
             | some v => if jtruthy v then v else JValue.obj []
             | none => JValue.obj []) with
        | some (JValue.str n), JValue.obj akvs =>
          if n ∈ available then add_call acc n akvs else acc
        | _, _ => acc
      else acc
    | _ => acc
  | _ => acc

/-- The `read_file` tag pass (tools.py lines 55-70): collect the non-empty
trimmed captures, remove matched spans when any matched, and strip stray
tags. -/
def pass1_read_file (text : Str) (available : List Str) : List ToolCall × Str :=
  if (str "read_file") ∈ available then
    let scanned := scanReadFile text
    let calls1 := scanned.1.foldl (fun acc cap =>
      if (pyStrip cap).isEmpty then acc
      else add_call acc (str "read_file") [(str "path", JValue.str (pyStrip cap))]) []
    let rem1 := if scanned.1.isEmpty then text else scanned.2
    (calls1, stripStrayRF rem1)
  else (([] : List ToolCall), text)

/-- The Anthropic-style list fallback (tools.py lines 91-107), attempted
only when no calls were recovered, the remainder mentions `tool_use` and it
starts with `[`; any parse failure abandons the fallback silently. -/
def fallback_pass (available : List Str) (calls2 : List ToolCall)
    (remaining2 : Str) : List ToolCall × Str :=
  if calls2.isEmpty && containsSub (str "tool_use") remaining2 &&
      (match pyStrip remaining2 with
       | '[' :: _ => true
       | _ => false) then
    match pyliteral_eval (pyStrip remaining2) with
    | some (JValue.arr items) =>
      let calls3 := items.foldl (toolUseStep available) calls2
      if calls3.isEmpty then (calls3, remaining2) else (calls3, ([] : Str))
    | some _ => (calls2, remaining2)
    | none => (calls2, remaining2)
  else (calls2, remaining2)

/-- `extract_tool_calls_from_text` (tools.py lines 9-110): the three
recovery passes in order, returning the calls and the stripped remainder
(`Except.error` models the uncaught `AttributeError` of pass 2 on a parsed
non-dict payload). -/
def extract_tool_calls_from_text (text : Str) (tools : List ToolDef) :
    Except Unit (List ToolCall × Str) :=
  let available := availableNames tools
  let pass1 := pass1_read_file text available
  let scannedB := scanBlocks pass1.2
  match foldBlocks available pass1.1 scannedB.1 with
  | .error e => .error e
  | .ok calls2 =>
    let remaining2 := if scannedB.1.isEmpty then pass1.2 else scannedB.2
    let fb := fallback_pass available calls2 remaining2
    .ok (fb.1, pyStrip fb.2)

/-! ### Claim C4 -/

/-- Every call id carries the global 1-based ordinal of its position. -/
def IdsOrdinal (calls : List ToolCall) : Prop :=
  ∀ i (hi : i < calls.length),
    (calls.get ⟨i, hi⟩).id =
      str "call_" ++ (calls.get ⟨i, hi⟩).name ++ '_' :: natToStr (i + 1)

theorem idsOrdinal_nil : IdsOrdinal [] := by
  intro i hi
  simp at hi

theorem idsOrdinal_add_call {calls : List ToolCall} (h : IdsOrdinal calls)
    (name : Str) (args : List (Str × JValue)) :
    IdsOrdinal (add_call calls name args) := by
  intro i hi
  unfold add_call at hi ⊢
  by_cases hlt : i < calls.length
  · rw [List.get_eq_getElem, List.getElem_append_left hlt]
    have := h i hlt
    rw [List.get_eq_getElem] at this
    exact this
  · have hi2 : i = calls.length := by
      simp only [List.length_append, List.length_singleton] at hi
      omega
    subst hi2
    rw [List.get_eq_getElem, List.getElem_append_right (le_refl _)]
    simp

theorem idsOrdinal_foldl {β : Type} (f : List ToolCall → β → List ToolCall)
    (hf : ∀ acc b, IdsOrdinal acc → IdsOrdinal (f acc b)) :
    ∀ (l : List β) (acc : List ToolCall), IdsOrdinal acc →
      IdsOrdinal (List.foldl f acc l) := by
  intro l
  induction l with
  | nil => intro acc h; simpa using h
  | cons b rest ih =>
    intro acc h
    rw [List.foldl_cons]
    exact ih (f acc b) (hf acc b h)

theorem blockStep_ids {available : List Str} {acc : List ToolCall} {cap : Str}
    {acc2 : List ToolCall} (h : blockStep available acc cap = .ok acc2)
    (hacc : IdsOrdinal acc) : IdsOrdinal acc2 := by
  unfold blockStep at h
  split at h
  · injection h with h
    subst h
    exact hacc
  · split at h
    · split at h <;> (injection h with h; subst h)
      · exact idsOrdinal_add_call hacc _ _
      · exact hacc
    · injection h with h
      subst h
      exact hacc
  · exact absurd h (by simp)

theorem idsOrdinal_foldBlocks (available : List Str) :
    ∀ (caps : List Str) (acc calls : List ToolCall),
      foldBlocks available acc caps = .ok calls →
      IdsOrdinal acc → IdsOrdinal calls := by
  intro caps
  induction caps with
  | nil =>
    intro acc calls h hacc
    rw [foldBlocks] at h
    injection h with h
    subst h
    exact hacc
  | cons cap rest ih =>
    intro acc calls h hacc
    rw [foldBlocks] at h
    cases hb : blockStep available acc cap with
    | ok acc2 =>
      rw [hb] at h
      simp only at h
      exact ih acc2 calls h (blockStep_ids hb hacc)
    | error e =>
      rw [hb] at h
      simp at h

theorem toolUseStep_ids {available : List Str} {acc : List ToolCall} {item : JValue}
    (hacc : IdsOrdinal acc) : IdsOrdinal (toolUseStep available acc item) := by
  unfold toolUseStep
  split
  · split
    · split
      · split
        · split
          · exact idsOrdinal_add_call hacc _ _
          · exact hacc
        · exact hacc
      · exact hacc
    · exact hacc
  · exact hacc

theorem pass1_ids (text : Str) (available : List Str) :
    IdsOrdinal (pass1_read_file text available).1 := by
  unfold pass1_read_file
  split
  · exact idsOrdinal_foldl _
      (by
        intro acc b hacc
        split
        · exact hacc
        · exact idsOrdinal_add_call hacc _ _)
      _ _ idsOrdinal_nil
  · exact idsOrdinal_nil

theorem fallback_ids {available : List Str} {calls2 : List ToolCall}
    {remaining2 : Str} (hacc : IdsOrdinal calls2) :
    IdsOrdinal (fallback_pass available calls2 remaining2).1 := by
  unfold fallback_pass
  split
  · split
    · dsimp only
      split
      · exact idsOrdinal_foldl _ (fun acc b h => toolUseStep_ids h) _ _ hacc
      · exact idsOrdinal_foldl _ (fun acc b h => toolUseStep_ids h) _ _ hacc
    · exact hacc
    · exact hacc
  · exact hacc

theorem extract_ids (text : Str) (tools : List ToolDef) (calls : List ToolCall)
    (rem : Str) (h : extract_tool_calls_from_text text tools = .ok (calls, rem)) :
    IdsOrdinal calls := by
  simp only [extract_tool_calls_from_text] at h
  split at h
  · exact absurd h (by simp)
  · next calls2 heq =>
    injection h with h
    injection h with h1 h2
    subst h1
    exact fallback_ids (idsOrdinal_foldBlocks _ _ _ _ heq (pass1_ids _ _))

theorem charOfNat_toNat {n : Nat} (h : n < 55296) : (Char.ofNat n).toNat = n := by
  have hv : Nat.isValidChar n := Or.inl h
  unfold Char.ofNat Char.ofNatAux
  rw [dif_pos hv]
  rfl

theorem digitChar_toNat {d : Nat} (h : d < 10) : (digitChar d).toNat = 48 + d := by
  unfold digitChar
  exact charOfNat_toNat (by omega)

theorem digitChar_ne_us {d : Nat} (h : d < 10) : digitChar d ≠ '_' := by
  intro he
  have h1 := digitChar_toNat h
  rw [he] at h1
  have h95 : ('_').toNat = 95 := by decide
  omega

theorem natDigitsF_eq_digits :
    ∀ (fuel n : Nat), n ≤ fuel → natDigitsF fuel n = Nat.digits 10 n := by
  intro fuel
  induction fuel with
  | zero =>
    intro n hn
    have h0 : n = 0 := Nat.le_zero.mp hn
    subst h0
    simp [natDigitsF]
  | succ fuel ih =>
    intro n hn
    by_cases h0 : n = 0
    · subst h0
      simp [natDigitsF]
    · rw [natDigitsF, if_neg h0]
      have hdiv : n / 10 ≤ fuel := by
        have := Nat.div_lt_self (Nat.pos_of_ne_zero h0) (by norm_num : 1 < 10)
        omega
      rw [ih (n / 10) hdiv]
      rw [Nat.digits_def' (by norm_num : 1 < 10) (Nat.pos_of_ne_zero h0)]

theorem natToStr_no_us (k : Nat) : ∀ c ∈ natToStr k, c ≠ '_' := by
  unfold natToStr
  by_cases hk : k = 0
  · rw [if_pos hk]
    intro c hc
    simp at hc
    subst hc
    exact digitChar_ne_us (by norm_num)
  · rw [if_neg hk]
    intro c hc
    rw [List.mem_reverse, List.mem_map] at hc
    obtain ⟨d, hd, rfl⟩ := hc
    rw [natDigitsF_eq_digits k k le_rfl] at hd
    exact digitChar_ne_us (Nat.digits_lt_base (by norm_num) hd)

theorem charToDigit_digitChar {d : Nat} (h : d < 10) : charToDigit (digitChar d) = d := by
  unfold charToDigit
  rw [digitChar_toNat h]
  omega

theorem digitsToNat_rev_map (ds : List Nat) (h : ∀ d ∈ ds, d < 10) :
    digitsToNat ((ds.map digitChar).reverse) = Nat.ofDigits 10 ds := by
  induction ds with
  | nil => simp [digitsToNat, Nat.ofDigits]
  | cons d rest ih =>
    rw [List.map_cons, List.reverse_cons]
    unfold digitsToNat
    rw [List.foldl_append]
    have hfold := ih (fun x hx => h x (by simp [hx]))
    unfold digitsToNat at hfold
    rw [hfold]
    simp only [List.foldl_cons, List.foldl_nil]
    rw [charToDigit_digitChar (h d (by simp))]
    rw [Nat.ofDigits_cons]
    ring

theorem digitsToNat_natToStr (k : Nat) : digitsToNat (natToStr k) = k := by
  unfold natToStr
  by_cases hk : k = 0
  · rw [if_pos hk, hk]
    rfl
  · rw [if_neg hk]
    rw [natDigitsF_eq_digits k k le_rfl]
    rw [digitsToNat_rev_map _ (fun d hd => Nat.digits_lt_base (by norm_num) hd)]
    exact Nat.ofDigits_digits 10 k

/-- The suffix after the last underscore of a string. -/
def afterLastUS (s : Str) : Str := (s.reverse.takeWhile (fun c => c ≠ '_')).reverse

theorem afterLastUS_id (pre : Str) (k : Nat) :
    afterLastUS (pre ++ '_' :: natToStr k) = natToStr k := by
  unfold afterLastUS
  rw [List.reverse_append, List.reverse_cons, List.append_assoc, List.singleton_append]
  rw [takeWhile_append_all
    (fun c hc => decide_eq_true (natToStr_no_us k c (List.mem_reverse.mp hc)))
    (by simp)]
  exact List.reverse_reverse _

theorem mkId_ordinal_inj {n1 n2 : Str} {k1 k2 : Nat}
    (h : str "call_" ++ n1 ++ '_' :: natToStr k1 = str "call_" ++ n2 ++ '_' :: natToStr k2) :
    k1 = k2 := by
  have h1 := congrArg afterLastUS h
  rw [afterLastUS_id, afterLastUS_id] at h1
  have := congrArg digitsToNat h1
  rwa [digitsToNat_natToStr, digitsToNat_natToStr] at this

/-- A tool list declaring read_file and search. -/
def c4_tools : List ToolDef :=
  [{ function_name := some (str "read_file") }, { function_name := some (str "search") }]

/-- A tool_call block payload naming search. -/
def c4_block1 : Str :=
  lbrace :: str "\"name\": \"search\", \"arguments\": " ++ [lbrace, rbrace, rbrace]

/-- A tool_call block payload naming read_file. -/
def c4_block2 : Str :=
  lbrace :: str "\"name\": \"read_file\", \"arguments\": " ++
    (lbrace :: str "\"path\": \"/b\"" ++ [rbrace, rbrace])

/-- Upstream text with two read_file matches separated by a search match. -/
def c4_text : Str :=
  str "<read_file><path>/a</path></read_file><tool_call>" ++ c4_block1 ++
    str "</tool_call><tool_call>" ++ c4_block2 ++ str "</tool_call>"

set_option maxRecDepth 10000 in
/-- C4 counterexample: in one extract call over `c4_text`, the two matches of
the tool name read_file receive ids `call_read_file_1` and `call_read_file_3`
(the search call in between takes the global ordinal 2), not
`call_read_file_1` and `call_read_file_2` as the claim states: the ordinal
counts all calls of the extract call, not the matches of one name. -/
theorem c4_counterexample :
    (extract_tool_calls_from_text c4_text c4_tools).toOption.map
        (fun p => p.1.map (fun c => (c.id, c.name))) =
      some [(str "call_read_file_1", str "read_file"),
            (str "call_search_2", str "search"),
            (str "call_read_file_3", str "read_file")] ∧
    str "call_read_file_3" ≠ str "call_read_file_2" := by
  constructor
  · decide
  · decide

/-- C4 (amended): within one extract call, every extracted tool call's id is
`call_<name>_<k>` where `k` is the 1-based ordinal of the call among all
calls extracted in that call (in match order across all patterns), and ids
are pairwise distinct. -/
theorem c4_call_ids (text : Str) (tools : List ToolDef) (calls : List ToolCall)
    (rem : Str) (h : extract_tool_calls_from_text text tools = .ok (calls, rem)) :
    (∀ i (hi : i < calls.length),
        (calls.get ⟨i, hi⟩).id =
          str "call_" ++ (calls.get ⟨i, hi⟩).name ++ '_' :: natToStr (i + 1)) ∧
    (∀ i j (hi : i < calls.length) (hj : j < calls.length), i ≠ j →
        (calls.get ⟨i, hi⟩).id ≠ (calls.get ⟨j, hj⟩).id) := by
  have hord := extract_ids text tools calls rem h
  refine ⟨hord, ?_⟩
  intro i j hi hj hne heq
  rw [hord i hi, hord j hj] at heq
  exact hne (by have := mkId_ordinal_inj heq; omega)

/-- A tool list declaring only read_file. -/
def c4w_tools : List ToolDef := [{ function_name := some (str "read_file") }]

/-- Upstream text with two consecutive read_file matches. -/
def c4w_text : Str :=
  str "<read_file><path>/a</path></read_file><read_file><path>/b</path></read_file>"

/-- The first call extracted from `c4w_text`. -/
def c4w_call1 : ToolCall :=
  { id := str "call_read_file_1", name := str "read_file",
    arguments := lbrace :: str "\"uri\": \"/a\"" ++ [rbrace] }

/-- The second call extracted from `c4w_text`. -/
def c4w_call2 : ToolCall :=
  { id := str "call_read_file_2", name := str "read_file",
    arguments := lbrace :: str "\"uri\": \"/b\"" ++ [rbrace] }

/-- The calls extracted from `c4w_text`. -/
def c4w_calls : List ToolCall := [c4w_call1, c4w_call2]

set_option maxRecDepth 10000 in
theorem c4_witness :
    extract_tool_calls_from_text c4w_text c4w_tools = .ok (c4w_calls, ([] : Str)) ∧
    (∀ i (hi : i < c4w_calls.length),
        (c4w_calls.get ⟨i, hi⟩).id =
          str "call_" ++ (c4w_calls.get ⟨i, hi⟩).name ++ '_' :: natToStr (i + 1)) ∧
    (∀ i j (hi : i < c4w_calls.length) (hj : j < c4w_calls.length), i ≠ j →
        (c4w_calls.get ⟨i, hi⟩).id ≠ (c4w_calls.get ⟨j, hj⟩).id) :=
  ⟨by decide, c4_call_ids c4w_text c4w_tools c4w_calls [] (by decide)⟩

/-! ### Claim C3 -/

theorem matchCI_self : ∀ (pat rest : Str), matchCI pat (pat ++ rest) = some rest := by
  intro pat
  induction pat with
  | nil => intro rest; rfl
  | cons p ps ih =>
    intro rest
    rw [List.cons_append, matchCI, if_pos rfl]
    exact ih rest

theorem lowerChar_ne_lt {c : Char} (h : c ≠ '<') : lowerChar c ≠ '<' := by
  unfold lowerChar
  split
  · next hcase =>
    intro he
    have h1 := congrArg Char.toNat he
    rw [charOfNat_toNat (by omega)] at h1
    have h2 : ('<').toNat = 60 := by decide
    omega
  · exact h

theorem matchCI_lt_none {c : Char} (h : c ≠ '<') (ps cs : Str) :
    matchCI ('<' :: ps) (c :: cs) = none := by
  rw [matchCI]
  have h1 : lowerChar '<' = '<' := by decide
  rw [h1, if_neg (lowerChar_ne_lt h)]

theorem matchReadFileAt_none_head {c : Char} (h : c ≠ '<') (cs : Str) :
    matchReadFileAt (c :: cs) = none := by
  unfold matchReadFileAt
  have h1 : matchCI (str "<read_file>") (c :: cs) = none :=
    matchCI_lt_none h (str "read_file>") cs
  rw [h1]
  rfl

theorem matchBlockAt_none_head {c : Char} (h : c ≠ '<') (cs : Str) :
    matchBlockAt (c :: cs) = none := by
  unfold matchBlockAt
  have h1 : matchCI (str "<tool_call>") (c :: cs) = none :=
    matchCI_lt_none h (str "tool_call>") cs
  rw [h1]
  rfl

theorem matchCloseRF_none_head {c : Char} (h : c ≠ '<') (cs : Str) :
    matchCloseRF (c :: cs) = none := by
  unfold matchCloseRF
  have h1 : matchCI (str "</path>") (c :: cs) = none :=
    matchCI_lt_none h (str "/path>") cs
  rw [h1]
  rfl

theorem dropWhile_lt_head (s : Str) :
    List.dropWhile pyIsSpace ('<' :: s) = '<' :: s := by
  rw [List.dropWhile_cons, if_neg (by decide)]

theorem matchCloseRF_self (post : Str) :
    matchCloseRF (str "</path></read_file>" ++ post) = some post := by
  unfold matchCloseRF
  rw [show str "</path></read_file>" ++ post =
        str "</path>" ++ (str "</read_file>" ++ post) from rfl,
      matchCI_self]
  simp only [Option.some_bind]
  rw [show str "</read_file>" ++ post = '<' :: (str "/read_file>" ++ post) from rfl,
      dropWhile_lt_head,
      show ('<' :: (str "/read_file>" ++ post)) = str "</read_file>" ++ post from rfl,
      matchCI_self]

theorem rfCaptureF_clean :
    ∀ (P : Str) (fuel : Nat) (post : Str), '<' ∉ P → P.length ≤ fuel →
      rfCaptureF fuel (P ++ (str "</path></read_file>" ++ post)) = some (P, post) := by
  intro P
  induction P with
  | nil =>
    intro fuel post _ _
    rw [List.nil_append]
    cases fuel with
    | zero => simp only [rfCaptureF]; rw [matchCloseRF_self]
    | succ f => simp only [rfCaptureF]; rw [matchCloseRF_self]
  | cons c cs ih =>
    intro fuel post h hf
    have hc : c ≠ '<' := by
      intro he
      apply h
      rw [he]
      exact List.mem_cons_self _ _
    have hcs : '<' ∉ cs := fun hm => h (List.mem_cons_of_mem _ hm)
    cases fuel with
    | zero =>
      simp only [List.length_cons] at hf
      omega
    | succ f =>
      rw [List.cons_append]
      simp only [rfCaptureF]
      rw [matchCloseRF_none_head hc]
      show (rfCaptureF f (cs ++ (str "</path></read_file>" ++ post))).map
        (fun p => (c :: p.1, p.2)) = some (c :: cs, post)
      rw [ih f post hcs (by simp only [List.length_cons] at hf; omega)]
      rfl

theorem rfCapture_clean (P post : Str) (h : '<' ∉ P) :
    rfCapture (P ++ (str "</path></read_file>" ++ post)) = some (P, post) := by
  unfold rfCapture
  exact rfCaptureF_clean P _ post h (by rw [List.length_append]; omega)

theorem matchReadFileAt_tag (P post : Str) (h : '<' ∉ P) :
    matchReadFileAt
        (str "<read_file><path>" ++ (P ++ (str "</path></read_file>" ++ post))) =
      some (P, post) := by
  unfold matchReadFileAt
  rw [show str "<read_file><path>" ++ (P ++ (str "</path></read_file>" ++ post)) =
        str "<read_file>" ++
          (str "<path>" ++ (P ++ (str "</path></read_file>" ++ post))) from rfl,
      matchCI_self]
  simp only [Option.some_bind]
  rw [show str "<path>" ++ (P ++ (str "</path></read_file>" ++ post)) =
        '<' :: (str "path>" ++ (P ++ (str "</path></read_file>" ++ post))) from rfl,
      dropWhile_lt_head,
      show ('<' :: (str "path>" ++ (P ++ (str "</path></read_file>" ++ post)))) =
        str "<path>" ++ (P ++ (str "</path></read_file>" ++ post)) from rfl,
      matchCI_self]
  simp only [Option.some_bind]
  exact rfCapture_clean P post h

theorem scanReadFileF_cons_match {f : Nat} {c : Char} {cs : Str}
    {capRest : Str × Str} (hm : matchReadFileAt (c :: cs) = some capRest) :
    scanReadFileF (f + 1) (c :: cs) =
      (capRest.1 :: (scanReadFileF f capRest.2).1, (scanReadFileF f capRest.2).2) := by
  simp only [scanReadFileF]
  rw [hm]

theorem scanReadFileF_cons_skip {f : Nat} {c : Char} {cs : Str}
    (hm : matchReadFileAt (c :: cs) = none) :
    scanReadFileF (f + 1) (c :: cs) =
      ((scanReadFileF f cs).1, c :: (scanReadFileF f cs).2) := by
  simp only [scanReadFileF]
  rw [hm]

theorem scanReadFileF_clean :
    ∀ (s : Str) (fuel : Nat), '<' ∉ s → scanReadFileF fuel s = ([], s) := by
  intro s
  induction s with
  | nil =>
    intro fuel _
    cases fuel <;> rfl
  | cons c cs ih =>
    intro fuel h
    have hc : c ≠ '<' := by
      intro he
      apply h
      rw [he]
      exact List.mem_cons_self _ _
    have hcs : '<' ∉ cs := fun hm => h (List.mem_cons_of_mem _ hm)
    cases fuel with
    | zero => rfl
    | succ f =>
      rw [scanReadFileF_cons_skip (matchReadFileAt_none_head hc cs), ih f hcs]

theorem scanReadFileF_tag :
    ∀ (pre : Str) (fuel : Nat) (P post : Str), '<' ∉ pre → '<' ∉ P → '<' ∉ post →
      (pre ++ (str "<read_file><path>" ++
        (P ++ (str "</path></read_file>" ++ post)))).length ≤ fuel →
      scanReadFileF fuel
          (pre ++ (str "<read_file><path>" ++
            (P ++ (str "</path></read_file>" ++ post)))) =
        ([P], pre ++ post) := by
  intro pre
  induction pre with
  | nil =>
    intro fuel P post _ hP hpost hf
    rw [List.nil_append] at hf ⊢
    cases fuel with
    | zero =>
      exfalso
      rw [show str "<read_file><path>" ++ (P ++ (str "</path></read_file>" ++ post)) =
            '<' :: (str "read_file><path>" ++
              (P ++ (str "</path></read_file>" ++ post))) from rfl] at hf
      simp only [List.length_cons] at hf
      omega
    | succ f =>
      rw [show str "<read_file><path>" ++ (P ++ (str "</path></read_file>" ++ post)) =
            '<' :: (str "read_file><path>" ++
              (P ++ (str "</path></read_file>" ++ post))) from rfl]
      have hm : matchReadFileAt
          ('<' :: (str "read_file><path>" ++
            (P ++ (str "</path></read_file>" ++ post)))) = some (P, post) :=
        matchReadFileAt_tag P post hP
      rw [scanReadFileF_cons_match hm]
      show (P :: (scanReadFileF f post).1, (scanReadFileF f post).2) = ([P], post)
      rw [scanReadFileF_clean post f hpost]
  | cons c pre2 ih =>
    intro fuel P post hpre hP hpost hf
    have hc : c ≠ '<' := by
      intro he
      apply hpre
      rw [he]
      exact List.mem_cons_self _ _
    have hpre2 : '<' ∉ pre2 := fun hm => hpre (List.mem_cons_of_mem _ hm)
    cases fuel with
    | zero =>
      simp only [List.cons_append, List.length_cons] at hf
      omega
    | succ f =>
      rw [List.cons_append]
      rw [scanReadFileF_cons_skip (matchReadFileAt_none_head hc _)]
      rw [ih f P post hpre2 hP hpost
        (by simp only [List.cons_append, List.length_cons] at hf; omega)]
      rfl

theorem scanReadFile_tag (pre P post : Str)
    (hpre : '<' ∉ pre) (hP : '<' ∉ P) (hpost : '<' ∉ post) :
    scanReadFile
        (pre ++ (str "<read_file><path>" ++
          (P ++ (str "</path></read_file>" ++ post)))) =
      ([P], pre ++ post) := by
  unfold scanReadFile
  exact scanReadFileF_tag pre _ P post hpre hP hpost le_rfl

theorem stripStrayRFF_clean :
    ∀ (s : Str) (fuel : Nat), '<' ∉ s → stripStrayRFF fuel s = s := by
  intro s
  induction s with
  | nil =>
    intro fuel _
    cases fuel <;> rfl
  | cons c cs ih =>
    intro fuel h
    have hc : c ≠ '<' := by
      intro he
      apply h
      rw [he]
      exact List.mem_cons_self _ _
    have hcs : '<' ∉ cs := fun hm => h (List.mem_cons_of_mem _ hm)
    cases fuel with
    | zero => rfl
    | succ f =>
      simp only [stripStrayRFF]
      have h1 : matchCI (str "<read_file>") (c :: cs) = none :=
        matchCI_lt_none hc (str "read_file>") cs
      have h2 : matchCI (str "</read_file>") (c :: cs) = none :=
        matchCI_lt_none hc (str "/read_file>") cs
      rw [h1, h2]
      show c :: stripStrayRFF f cs = c :: cs
      rw [ih f hcs]

theorem stripStrayRF_clean (s : Str) (h : '<' ∉ s) : stripStrayRF s = s :=
  stripStrayRFF_clean s s.length h

theorem scanBlocksF_clean :
    ∀ (s : Str) (fuel : Nat), '<' ∉ s → scanBlocksF fuel s = ([], s) := by
  intro s
  induction s with
  | nil =>
    intro fuel _
    cases fuel <;> rfl
  | cons c cs ih =>
    intro fuel h
    have hc : c ≠ '<' := by
      intro he
      apply h
      rw [he]
      exact List.mem_cons_self _ _
    have hcs : '<' ∉ cs := fun hm => h (List.mem_cons_of_mem _ hm)
    cases fuel with
    | zero => rfl
    | succ f =>
      simp only [scanBlocksF]
      rw [matchBlockAt_none_head hc]
      show ((scanBlocksF f cs).1, c :: (scanBlocksF f cs).2) = ([], c :: cs)
      rw [ih f hcs]

theorem scanBlocks_clean (s : Str) (h : '<' ∉ s) : scanBlocks s = ([], s) :=
  scanBlocksF_clean s s.length h

/-- One entry of the `tool_calls` delta list built in `event_gen`
(routes_chat.py lines 256-268). -/
structure DeltaToolCall where
  index : Nat
  id : Str
  type : Str
  function_name : Option Str
  function_arguments : Str
deriving DecidableEq, Repr

/-- One element of a chunk's `choices` list: the delta fields and the
finish reason (routes_chat.py lines 272-284 and 289-301). -/
structure ChunkChoice where
  index : Nat
  delta_role : Option Str
  delta_content : Option Str
  delta_tool_calls : Option (List DeltaToolCall)
  finish_reason : Option Str
deriving DecidableEq, Repr

/-- An OpenAI-style streaming chunk (`created` omitted: it is a wall-clock
timestamp). -/
structure Chunk where
  id : Str
  object : Str
  model : Str
  choices : List ChunkChoice
  usage : Option UsageDict
deriving DecidableEq, Repr

/-- One server-sent event of the streaming response: a data chunk or the
final `[DONE]` sentinel. -/
inductive SSEEvent where
  | data (c : Chunk)
  | done
deriving DecidableEq, Repr

/-- The delta entry of one extracted tool call (routes_chat.py lines
258-268; the id default is never taken because every extracted call
carries an id). -/
def mkDeltaToolCall (idx : Nat) (tc : ToolCall) : DeltaToolCall :=
  { index := idx, id := tc.id, type := str "function",
    function_name := some tc.name, function_arguments := tc.arguments }

/-- `event_gen` (routes_chat.py lines 252-305): the first chunk carries the
assistant role plus either the tool-call deltas or the text content, the
terminal chunk carries an empty delta, the finish reason (`tool_calls`
when calls were extracted, else `stop`) and the usage, and the stream ends
with the `[DONE]` sentinel. -/
def event_gen (resp_id model_name : Str) (tool_calls : List ToolCall)
    (assistant_text : Str) (usage_info : Option UsageDict) : List SSEEvent :=
  let first_choice : ChunkChoice :=
    if tool_calls.isEmpty then
      { index := 0, delta_role := some (str "assistant"),
        delta_content := some (if assistant_text.isEmpty then
          str "(no content returned)" else assistant_text),
        delta_tool_calls := none, finish_reason := none }
    else
      { index := 0, delta_role := some (str "assistant"), delta_content := none,
        delta_tool_calls :=
          some (tool_calls.enum.map (fun p => mkDeltaToolCall p.1 p.2)),
        finish_reason := none }
  let done_choice : ChunkChoice :=
    { index := 0, delta_role := none, delta_content := none,
      delta_tool_calls := none,
      finish_reason :=
        some (if tool_calls.isEmpty then str "stop" else str "tool_calls") }
  let chunk : Chunk :=
    { id := resp_id, object := str "chat.completion.chunk",
      model := model_name, choices := [first_choice], usage := none }
  let done_chunk : Chunk :=
    { id := resp_id, object := str "chat.completion.chunk",
      model := model_name, choices := [done_choice], usage := usage_info }
  [SSEEvent.data chunk, SSEEvent.data done_chunk, SSEEvent.done]

/-- The single call extracted from one clean read_file tag with path `P`. -/
def c3_call (P : Str) : ToolCall :=
  { id := str "call_read_file_1", name := str "read_file",
    arguments := json_dumps (JValue.obj [(str "uri", JValue.str P)]) }

theorem add_call_read_file (P : Str) (hPne : P ≠ []) :
    add_call [] (str "read_file") [(str "path", JValue.str P)] = [c3_call P] := by
  cases P with
  | nil => exact absurd rfl hPne
  | cons a l => rfl

theorem extract_single_read_file (pre P post : Str) (tools : List ToolDef)
    (hav : str "read_file" ∈ availableNames tools)
    (hpre : '<' ∉ pre) (hP : '<' ∉ P) (hpost : '<' ∉ post)
    (hPs : pyStrip P = P) (hPne : P ≠ []) :
    extract_tool_calls_from_text
        (pre ++ str "<read_file><path>" ++ P ++ str "</path></read_file>" ++ post)
        tools =
      .ok ([c3_call P], pyStrip (pre ++ post)) := by
  have htext : pre ++ str "<read_file><path>" ++ P ++ str "</path></read_file>" ++ post =
      pre ++ (str "<read_file><path>" ++ (P ++ (str "</path></read_file>" ++ post))) := by
    simp only [List.append_assoc]
  rw [htext]
  have hclean : '<' ∉ pre ++ post := by
    intro hm
    rcases List.mem_append.mp hm with h1 | h1
    · exact hpre h1
    · exact hpost h1
  have hPe : P.isEmpty = false := by
    cases P with
    | nil => exact absurd rfl hPne
    | cons a l => rfl
  have hscan := scanReadFile_tag pre P post hpre hP hpost
  have hpass1 : pass1_read_file
      (pre ++ (str "<read_file><path>" ++ (P ++ (str "</path></read_file>" ++ post))))
      (availableNames tools) = ([c3_call P], pre ++ post) := by
    simp only [pass1_read_file]
    rw [if_pos hav, hscan]
    simp only [List.foldl_cons, List.foldl_nil, hPs, hPe, Bool.false_eq_true,
      if_false, List.isEmpty_cons]
    rw [add_call_read_file P hPne, stripStrayRF_clean _ hclean]
  have h1 : (pass1_read_file
      (pre ++ (str "<read_file><path>" ++ (P ++ (str "</path></read_file>" ++ post))))
      (availableNames tools)).1 = [c3_call P] := by rw [hpass1]
  have h2 : (pass1_read_file
      (pre ++ (str "<read_file><path>" ++ (P ++ (str "</path></read_file>" ++ post))))
      (availableNames tools)).2 = pre ++ post := by rw [hpass1]
  have hB1 : (scanBlocks (pre ++ post)).1 = [] := by rw [scanBlocks_clean _ hclean]
  simp only [extract_tool_calls_from_text, h1, h2, hB1]
  simp only [foldBlocks, List.isEmpty_nil, if_true, fallback_pass,
    List.isEmpty_cons, Bool.false_and, Bool.false_eq_true, if_false]

/-- The streamed delta entry of the extracted read_file call. -/
def c3_delta (P : Str) : DeltaToolCall :=
  { index := 0, id := str "call_read_file_1", type := str "function",
    function_name := some (str "read_file"),
    function_arguments := json_dumps (JValue.obj [(str "uri", JValue.str P)]) }

/-- The first chunk's single choice: assistant role and the tool-call delta. -/
def c3_choice1 (P : Str) : ChunkChoice :=
  { index := 0, delta_role := some (str "assistant"), delta_content := none,
    delta_tool_calls := some [c3_delta P], finish_reason := none }

/-- The first streamed chunk: it carries the extracted call. -/
def c3_chunk1 (resp_id model_name P : Str) : Chunk :=
  { id := resp_id, object := str "chat.completion.chunk", model := model_name,
    choices := [c3_choice1 P], usage := none }

/-- The terminal chunk's single choice: empty delta, finish reason tool_calls. -/
def c3_choice2 : ChunkChoice :=
  { index := 0, delta_role := none, delta_content := none,
    delta_tool_calls := none, finish_reason := some (str "tool_calls") }

/-- The terminal streamed chunk. -/
def c3_chunk2 (resp_id model_name : Str) (usage_info : Option UsageDict) : Chunk :=
  { id := resp_id, object := str "chat.completion.chunk", model := model_name,
    choices := [c3_choice2], usage := usage_info }

/-- C3: when a read_file tool is declared and the upstream text is
`pre <read_file><path>P</path></read_file> post` with `P` non-empty,
already trimmed and (like `pre` and `post`) free of `<`, extraction
returns exactly one call named read_file whose arguments document is the
single field uri mapped to `P`, with the matched span removed from the
remainder; both the path and uri argument spellings normalize to the uri
field; and the streamed response carries that call in the first chunk and
a terminal chunk whose finish reason is tool_calls, followed by the
`[DONE]` sentinel. -/
theorem c3_read_file_stream (pre P post : Str) (tools : List ToolDef)
    (resp_id model_name : Str) (usage_info : Option UsageDict)
    (hav : str "read_file" ∈ availableNames tools)
    (hpre : '<' ∉ pre) (hP : '<' ∉ P) (hpost : '<' ∉ post)
    (hPs : pyStrip P = P) (hPne : P ≠ []) :
    extract_tool_calls_from_text
        (pre ++ str "<read_file><path>" ++ P ++ str "</path></read_file>" ++ post)
        tools =
      .ok ([c3_call P], pyStrip (pre ++ post)) ∧
    (∀ v : JValue, jtruthy v = true →
      normalize_args (str "read_file") [(str "path", v)] = [(str "uri", v)] ∧
      normalize_args (str "read_file") [(str "uri", v)] = [(str "uri", v)]) ∧
    event_gen resp_id model_name [c3_call P]
        (pre ++ str "<read_file><path>" ++ P ++ str "</path></read_file>" ++ post)
        usage_info =
      [SSEEvent.data (c3_chunk1 resp_id model_name P),
       SSEEvent.data (c3_chunk2 resp_id model_name usage_info),
       SSEEvent.done] := by
  refine ⟨extract_single_read_file pre P post tools hav hpre hP hpost hPs hPne, ?_, rfl⟩
  intro v hv
  constructor
  · simp [normalize_args, jget, hv]
  · simp only [normalize_args, jget, hv]
    rw [if_neg (by decide : ¬ str "uri" = str "path")]
    simp [hv]

/-- A tool list for the streaming scenario, declaring read_file. -/
def c3w_tools : List ToolDef := [{ function_name := some (str "read_file") }]

theorem c3_witness :
    (str "read_file" ∈ availableNames c3w_tools ∧
      pyStrip (str "/tmp/a.txt") = str "/tmp/a.txt" ∧
      '<' ∉ str "x " ∧ '<' ∉ str "/tmp/a.txt" ∧ '<' ∉ str " y") ∧
    extract_tool_calls_from_text
        (str "x " ++ str "<read_file><path>" ++ str "/tmp/a.txt" ++
          str "</path></read_file>" ++ str " y") c3w_tools =
      .ok ([c3_call (str "/tmp/a.txt")], pyStrip (str "x " ++ str " y")) ∧
    (∀ v : JValue, jtruthy v = true →
      normalize_args (str "read_file") [(str "path", v)] = [(str "uri", v)] ∧
      normalize_args (str "read_file") [(str "uri", v)] = [(str "uri", v)]) ∧
    event_gen (str "resp_local") (str "m") [c3_call (str "/tmp/a.txt")]
        (str "x " ++ str "<read_file><path>" ++ str "/tmp/a.txt" ++
          str "</path></read_file>" ++ str " y") none =
      [SSEEvent.data (c3_chunk1 (str "resp_local") (str "m") (str "/tmp/a.txt")),
       SSEEvent.data (c3_chunk2 (str "resp_local") (str "m") none),
       SSEEvent.done] :=
  ⟨⟨by decide, by decide, by decide, by decide, by decide⟩,
   c3_read_file_stream (str "x ") (str "/tmp/a.txt") (str " y") c3w_tools
     (str "resp_local") (str "m") none (by decide) (by decide) (by decide)
     (by decide) (by decide) (by decide)⟩
